import Mathlib

/-!
Shallow embedding of the print-layout-planner core: the shelf packer and
layout optimiser (`src/helpers/packing.ts`) and the sheet-tiling / texture
crop geometry of the PDF export (`src/helpers/exportPdf.ts`).

Millimetre and pixel quantities are modelled as exact rationals (`ℚ`);
JavaScript `Map` objects are modelled as association lists with
insertion-order `set` semantics.
-/

namespace PlanSpec

/-- Constant `EPSILON` from `src/constants.ts` (0.0001 mm). -/
def EPSILON : ℚ := 1 / 10000

/-- Constant `MAX_SHEET_GRID` from `src/constants.ts`. -/
def MAX_SHEET_GRID : ℕ := 24

/-- The numeric and identity fields of `PrintObject` from `src/types.ts`.
(`label` and `color` are carried as opaque strings; the optional texture
fields are modelled separately as the decoded-texture map used by the
export routine.) -/
structure PrintObject where
  id : String
  label : String
  widthMm : ℚ
  heightMm : ℚ
  xMm : ℚ
  yMm : ℚ
  color : String
deriving DecidableEq, Repr

/-- `SheetDimensions` from `src/types.ts`. -/
structure SheetDimensions where
  widthMm : ℚ
  heightMm : ℚ
deriving DecidableEq, Repr

/-- `PackingPlacement` from `src/helpers/packing.ts`. -/
structure PackingPlacement where
  xMm : ℚ
  yMm : ℚ
deriving DecidableEq, Repr

/-- `Shelf` from `src/helpers/packing.ts`. -/
structure Shelf where
  yMm : ℚ
  heightMm : ℚ
  usedWidthMm : ℚ
deriving DecidableEq, Repr

instance : Inhabited Shelf := ⟨⟨0, 0, 0⟩⟩

/-- JavaScript `Map.prototype.set` on an association list: replace the value
in place if the key is present, otherwise append the pair at the end. -/
def mapSet {β : Type} (l : List (String × β)) (k : String) (v : β) : List (String × β) :=
  match l with
  | [] => [(k, v)]
  | (k', v') :: rest => if k' = k then (k, v) :: rest else (k', v') :: mapSet rest k v

/-- Inner loop of `packWithinWidth` (lines 38-48 of `packing.ts`): scan the
shelves, keeping the index of the fitting shelf with the smallest remaining
width.  The accumulator is `none` while no shelf fits (the source's
`bestShelfIndex = -1` with `tightestRemaining = ∞`), otherwise
`some (bestShelfIndex, tightestRemaining)`. -/
def selectShelfAux (w maxWidthMm : ℚ) : List Shelf → ℕ → Option (ℕ × ℚ) → Option (ℕ × ℚ)
  | [], _, acc => acc
  | shelf :: rest, index, acc =>
    let projectedWidth := shelf.usedWidthMm + w
    let acc' :=
      if projectedWidth ≤ maxWidthMm + EPSILON then
        let remaining := maxWidthMm - projectedWidth
        match acc with
        | none => some (index, remaining)
        | some best => if remaining < best.2 then some (index, remaining) else acc
      else acc
    selectShelfAux w maxWidthMm rest (index + 1) acc'

/-- Shelf-selection loop of `packWithinWidth`, returning the chosen shelf
index (or `none` when no existing shelf fits). -/
def selectShelf (shelves : List Shelf) (w maxWidthMm : ℚ) : Option ℕ :=
  (selectShelfAux w maxWidthMm shelves 0 none).map Prod.fst

/-- Mutable state of one `packWithinWidth` invocation. -/
structure PackState where
  shelves : List Shelf
  placements : List (String × PackingPlacement)
  totalHeightMm : ℚ
  maxUsedWidthMm : ℚ
deriving Repr

/-- Shift every shelf strictly after index `i` down by `delta`
(lines 72-74 of `packing.ts`). -/
def shiftAfter (shelves : List Shelf) (i : ℕ) (delta : ℚ) : List Shelf :=
  shelves.enum.map fun p => if i < p.1 then { p.2 with yMm := p.2.yMm + delta } else p.2

/-- Body of the `for (const rect of rectangles)` loop of `packWithinWidth`
(lines 30-77 of `packing.ts`); `none` models the early `return null`. -/
def packStep (maxWidthMm : ℚ) (st : PackState) (rect : PrintObject) : Option PackState :=
  if rect.widthMm > maxWidthMm + EPSILON then none
  else
    match selectShelf st.shelves rect.widthMm maxWidthMm with
    | none =>
      let newShelf : Shelf :=
        { yMm := st.totalHeightMm, heightMm := rect.heightMm, usedWidthMm := rect.widthMm }
      some { shelves := st.shelves ++ [newShelf]
             placements := mapSet st.placements rect.id ⟨0, newShelf.yMm⟩
             totalHeightMm := st.totalHeightMm + rect.heightMm
             maxUsedWidthMm := max st.maxUsedWidthMm rect.widthMm }
    | some bestShelfIndex =>
      let shelf := st.shelves.getD bestShelfIndex default
      let placementX := shelf.usedWidthMm
      let placements' := mapSet st.placements rect.id ⟨placementX, shelf.yMm⟩
      let grownUsed := shelf.usedWidthMm + rect.widthMm
      let maxUsed := max st.maxUsedWidthMm grownUsed
      if rect.heightMm > shelf.heightMm then
        let delta := rect.heightMm - shelf.heightMm
        let shelves' :=
          st.shelves.set bestShelfIndex
            { shelf with usedWidthMm := grownUsed, heightMm := rect.heightMm }
        some { shelves := shiftAfter shelves' bestShelfIndex delta
               placements := placements'
               totalHeightMm := st.totalHeightMm + delta
               maxUsedWidthMm := maxUsed }
      else
        some { shelves := st.shelves.set bestShelfIndex { shelf with usedWidthMm := grownUsed }
               placements := placements'
               totalHeightMm := st.totalHeightMm
               maxUsedWidthMm := maxUsed }

/-- Return value of `packWithinWidth`. -/
structure PackOutcome where
  placements : List (String × PackingPlacement)
  totalHeightMm : ℚ
  usedWidthMm : ℚ
deriving Repr

/-- `packWithinWidth` from `src/helpers/packing.ts` (lines 24-90):
shelf-pack the rectangles in order within `maxWidthMm`; `none` models the
`return null` taken when a rectangle is wider than `maxWidthMm + EPSILON`. -/
def packWithinWidth (rectangles : List PrintObject) (maxWidthMm : ℚ) : Option PackOutcome :=
  (rectangles.foldlM (packStep maxWidthMm) ⟨[], [], 0, 0⟩).map fun st =>
    let heightExtent :=
      match st.shelves.getLast? with
      | none => 0
      | some lastShelf => lastShelf.yMm + lastShelf.heightMm
    { placements := st.placements
      totalHeightMm := max st.totalHeightMm heightExtent
      usedWidthMm := min maxWidthMm st.maxUsedWidthMm }

/-- `PackingResult` from `src/helpers/packing.ts`. -/
structure PackingResult where
  columns : ℕ
  rows : ℕ
  placements : List (String × PackingPlacement)
  layoutWidthMm : ℚ
  layoutHeightMm : ℚ
  wasteArea : ℚ
deriving Repr

/-- The sort comparator of `optimisePackingLayout` (lines 97-104 of
`packing.ts`) as a total preorder: `packOrder a b` holds when the JS
comparator returns a non-positive value on `(a, b)`, i.e. when `a` may be
placed before `b`. -/
def packOrder (a b : PrintObject) : Bool :=
  let aKey := max a.widthMm a.heightMm
  let bKey := max b.widthMm b.heightMm
  if bKey ≠ aKey then decide (bKey < aKey)
  else if b.heightMm ≠ a.heightMm then decide (b.heightMm < a.heightMm)
  else decide (b.widthMm ≤ a.widthMm)

/-- Body of the column-search loop of `optimisePackingLayout`
(lines 114-144 of `packing.ts`): try one column count and keep the better
of it and the current best. -/
def considerColumn (sorted : List PrintObject) (totalArea sheetWidthMm sheetHeightMm : ℚ)
    (best : Option PackingResult) (columns : ℕ) : Option PackingResult :=
  let maxLayoutWidth := (columns : ℚ) * sheetWidthMm
  match packWithinWidth sorted maxLayoutWidth with
  | none => best
  | some packing =>
    let rows : ℕ := max 1 ⌈packing.totalHeightMm / sheetHeightMm⌉.toNat
    let layoutWidth := min maxLayoutWidth (max sheetWidthMm packing.usedWidthMm)
    let layoutHeight := max packing.totalHeightMm ((rows : ℚ) * sheetHeightMm)
    let wasteArea := (columns : ℚ) * (rows : ℚ) * sheetWidthMm * sheetHeightMm - totalArea
    let candidate : PackingResult :=
      { columns := columns, rows := rows, placements := packing.placements
        layoutWidthMm := layoutWidth, layoutHeightMm := layoutHeight, wasteArea := wasteArea }
    match best with
    | none => some candidate
    | some b =>
      if wasteArea < b.wasteArea - 1/2 ∨
          (|wasteArea - b.wasteArea| < 1/2 ∧
            (rows < b.rows ∨ (rows = b.rows ∧
              (columns < b.columns ∨
                (columns = b.columns ∧ packing.totalHeightMm < b.layoutHeightMm))))) then
        some candidate
      else some b

/-- Maximum rectangle width reduction of `optimisePackingLayout`
(line 107 of `packing.ts`). -/
def maxWidthRequirement (sorted : List PrintObject) : ℚ :=
  sorted.foldl (fun m rect => max m rect.widthMm) 0

/-- Total rectangle area reduction of `optimisePackingLayout`
(line 106 of `packing.ts`). -/
def totalRectArea (sorted : List PrintObject) : ℚ :=
  sorted.foldl (fun sum rect => sum + rect.widthMm * rect.heightMm) 0

/-- `minimumColumns` of `optimisePackingLayout` (line 109 of `packing.ts`). -/
def minimumColumns (sorted : List PrintObject) (sheetWidthMm : ℚ) : ℕ :=
  max 1 ⌈maxWidthRequirement sorted / sheetWidthMm⌉.toNat

/-- `maximumColumns` of `optimisePackingLayout` (line 110 of `packing.ts`). -/
def maximumColumns (sorted : List PrintObject) (sheetWidthMm : ℚ) : ℕ :=
  max (minimumColumns sorted sheetWidthMm) MAX_SHEET_GRID

/-- `optimisePackingLayout` from `src/helpers/packing.ts` (lines 92-147). -/
def optimisePackingLayout (objects : List PrintObject) (sheetWidthMm sheetHeightMm : ℚ) :
    Option PackingResult :=
  if objects.isEmpty then none
  else
    let sorted := objects.mergeSort packOrder
    let totalArea := totalRectArea sorted
    let minCols := minimumColumns sorted sheetWidthMm
    let maxCols := maximumColumns sorted sheetWidthMm
    (List.range' minCols (maxCols + 1 - minCols)).foldl
      (considerColumn sorted totalArea sheetWidthMm sheetHeightMm) none

/-- Decoded texture metadata for one object (`naturalWidth`/`naturalHeight`
of the loaded image, lines 44-48 of `exportPdf.ts`). -/
structure Texture where
  widthPx : ℚ
  heightPx : ℚ
deriving DecidableEq, Repr

/-- JavaScript `Map.prototype.get` on an association list. -/
def mapGet {β : Type} (l : List (String × β)) (k : String) : Option β :=
  (l.find? fun p => p.1 = k).map Prod.snd

/-- One draw command of the export loop: either a cropped texture segment
(`doc.addImage` with the source-pixel crop used to build the segment, plus
the outline `doc.rect`, lines 125-128 of `exportPdf.ts`) or a flat fill
(`doc.rect` with fill, lines 130-134).  Destination coordinates are in mm
relative to the cell origin. -/
inductive DrawCommand where
  | imageCrop (relativeX relativeY widthMm heightMm sx sy sWidth sHeight : ℚ)
  | fill (relativeX relativeY widthMm heightMm : ℚ) (color : String)
deriving DecidableEq, Repr

/-- An intersection rectangle in global mm coordinates
(`interLeft`/`interTop`/`interWidth`/`interHeight` of `exportPdf.ts`). -/
structure InterRect where
  left : ℚ
  top : ℚ
  width : ℚ
  height : ℚ
deriving DecidableEq, Repr

/-- Intersection of one object's bounding rectangle with one sheet cell
(lines 76-88 of `exportPdf.ts`). -/
def cellObjectInter (object : PrintObject) (sheet : SheetDimensions)
    (columnIndex rowIndex : ℕ) : InterRect :=
  let originX := (columnIndex : ℚ) * sheet.widthMm
  let originY := (rowIndex : ℚ) * sheet.heightMm
  let objectRight := object.xMm + object.widthMm
  let objectBottom := object.yMm + object.heightMm
  let interLeft := max object.xMm originX
  let interTop := max object.yMm originY
  let interRight := min objectRight (originX + sheet.widthMm)
  let interBottom := min objectBottom (originY + sheet.heightMm)
  { left := interLeft, top := interTop
    width := interRight - interLeft, height := interBottom - interTop }

/-- A source-pixel crop rectangle (`sxFloat`/`syFloat`/`sWidthFloat`/
`sHeightFloat` of `exportPdf.ts`). -/
structure CropRect where
  sx : ℚ
  sy : ℚ
  sWidth : ℚ
  sHeight : ℚ
deriving DecidableEq, Repr

/-- Source-pixel crop rectangle for a textured object (lines 100-105 of
`exportPdf.ts`). -/
def cropRect (object : PrintObject) (texture : Texture)
    (interLeft interTop interWidth interHeight : ℚ) : CropRect :=
  let scaleX := texture.widthPx / object.widthMm
  let scaleY := texture.heightPx / object.heightMm
  let sxFloat := max 0 ((interLeft - object.xMm) * scaleX)
  let syFloat := max 0 ((interTop - object.yMm) * scaleY)
  let sWidthFloat := max 1 (min (texture.widthPx - sxFloat) (interWidth * scaleX))
  let sHeightFloat := max 1 (min (texture.heightPx - syFloat) (interHeight * scaleY))
  { sx := sxFloat, sy := syFloat, sWidth := sWidthFloat, sHeight := sHeightFloat }

/-- Contribution of one object to one sheet cell (the body of
`objects.forEach`, lines 80-136 of `exportPdf.ts`): `none` when the
intersection is degenerate (width or height at most `EPSILON`). -/
def objectCellCommand (textures : List (String × Texture)) (sheet : SheetDimensions)
    (object : PrintObject) (columnIndex rowIndex : ℕ) : Option DrawCommand :=
  let originX := (columnIndex : ℚ) * sheet.widthMm
  let originY := (rowIndex : ℚ) * sheet.heightMm
  let inter := cellObjectInter object sheet columnIndex rowIndex
  if inter.width ≤ EPSILON ∨ inter.height ≤ EPSILON then none
  else
    let relativeX := inter.left - originX
    let relativeY := inter.top - originY
    match mapGet textures object.id with
    | some texture =>
      let crop := cropRect object texture inter.left inter.top inter.width inter.height
      some (.imageCrop relativeX relativeY inter.width inter.height
        crop.sx crop.sy crop.sWidth crop.sHeight)
    | none => some (.fill relativeX relativeY inter.width inter.height object.color)

/-- Draw-command list of one sheet cell (the `drawCommands` array built for
the cell at `(rowIndex, columnIndex)`). -/
def cellCommands (objects : List PrintObject) (textures : List (String × Texture))
    (sheet : SheetDimensions) (columnIndex rowIndex : ℕ) : List DrawCommand :=
  objects.filterMap fun object => objectCellCommand textures sheet object columnIndex rowIndex

/-- Row-major list of the grid cells whose draw-command list is non-empty
(the cells for which lines 138-147 of `exportPdf.ts` emit a page). -/
def nonEmptyCells (objects : List PrintObject) (textures : List (String × Texture))
    (sheet : SheetDimensions) (columns rows : ℕ) : List (ℕ × ℕ) :=
  (List.range rows).flatMap fun rowIndex =>
    (List.range columns).filterMap fun columnIndex =>
      if cellCommands objects textures sheet columnIndex rowIndex = [] then none
      else some (rowIndex, columnIndex)

/-- Page sequence produced by the nested cell loop of `exportLayoutToPdf`
(lines 74-149 of `exportPdf.ts`): one page per cell with at least one draw
command, in row-major order; cells with no commands emit no page. -/
def exportPages (objects : List PrintObject) (textures : List (String × Texture))
    (sheet : SheetDimensions) (columns rows : ℕ) : List (List DrawCommand) :=
  (List.range rows).flatMap fun rowIndex =>
    (List.range columns).filterMap fun columnIndex =>
      let commands := cellCommands objects textures sheet columnIndex rowIndex
      if commands = [] then none else some commands

/-- Membership of a global point in the union of the per-cell intersection
rectangles the tiling emits for one object (each translated back to global
coordinates, with the `EPSILON` degeneracy skip of line 90 of
`exportPdf.ts`); rectangles are read as half-open boxes
`[left, left+width) × [top, top+height)`. -/
def inCellTiling (object : PrintObject) (sheet : SheetDimensions)
    (columns rows : ℕ) (p : ℚ × ℚ) : Bool :=
  (List.range rows).any fun rowIndex =>
    (List.range columns).any fun columnIndex =>
      let inter := cellObjectInter object sheet columnIndex rowIndex
      decide (¬ (inter.width ≤ EPSILON ∨ inter.height ≤ EPSILON) ∧
        inter.left ≤ p.1 ∧ p.1 < inter.left + inter.width ∧
        inter.top ≤ p.2 ∧ p.2 < inter.top + inter.height)

/-- Membership of a global point in the object's bounding rectangle
intersected with the full grid extent (both as half-open boxes). -/
def inClippedObject (object : PrintObject) (sheet : SheetDimensions)
    (columns rows : ℕ) (p : ℚ × ℚ) : Bool :=
  decide (object.xMm ≤ p.1 ∧ p.1 < object.xMm + object.widthMm ∧
    object.yMm ≤ p.2 ∧ p.2 < object.yMm + object.heightMm ∧
    0 ≤ p.1 ∧ p.1 < (columns : ℚ) * sheet.widthMm ∧
    0 ≤ p.2 ∧ p.2 < (rows : ℚ) * sheet.heightMm)

/-- Membership of a global point in the raw (pre-skip) intersection
rectangle of one object with one cell. -/
def inCellInter (object : PrintObject) (sheet : SheetDimensions)
    (columnIndex rowIndex : ℕ) (p : ℚ × ℚ) : Prop :=
  let inter := cellObjectInter object sheet columnIndex rowIndex
  inter.left ≤ p.1 ∧ p.1 < inter.left + inter.width ∧
  inter.top ≤ p.2 ∧ p.2 < inter.top + inter.height

/-! ### Instrumented packer

`packWithinWidth` does not record which shelf a rectangle landed on, so to
state per-shelf properties we run the identical algorithm with two ghost
fields per placement (the chosen shelf index and the rectangle's width) and
prove that erasing the ghosts recovers `packWithinWidth` exactly. -/

/-- A `PackingPlacement` with two ghost fields: the index of the shelf the
rectangle was placed on and the rectangle's width. -/
structure APlacement where
  xMm : ℚ
  yMm : ℚ
  shelfIdx : ℕ
  rectWidth : ℚ
deriving DecidableEq, Repr

/-- `PackState` with annotated placements. -/
structure APackState where
  shelves : List Shelf
  placements : List (String × APlacement)
  totalHeightMm : ℚ
  maxUsedWidthMm : ℚ
deriving Repr

/-- Drop the ghost fields of an annotated placement. -/
def eraseGhost (e : APlacement) : PackingPlacement :=
  { xMm := e.xMm, yMm := e.yMm }

/-- Drop the ghost fields of an annotated placement list. -/
def erasePlacements (l : List (String × APlacement)) : List (String × PackingPlacement) :=
  l.map fun p => (p.1, eraseGhost p.2)

/-- Drop the ghost fields of an annotated state. -/
def eraseState (st : APackState) : PackState :=
  { shelves := st.shelves, placements := erasePlacements st.placements
    totalHeightMm := st.totalHeightMm, maxUsedWidthMm := st.maxUsedWidthMm }

/-- `packStep` with ghost annotations: identical control flow and shelf
bookkeeping, additionally recording the shelf index and rectangle width in
each placement. -/
def packStepA (maxWidthMm : ℚ) (st : APackState) (rect : PrintObject) : Option APackState :=
  if rect.widthMm > maxWidthMm + EPSILON then none
  else
    match selectShelf st.shelves rect.widthMm maxWidthMm with
    | none =>
      let newShelf : Shelf :=
        { yMm := st.totalHeightMm, heightMm := rect.heightMm, usedWidthMm := rect.widthMm }
      some { shelves := st.shelves ++ [newShelf]
             placements := mapSet st.placements rect.id
               ⟨0, newShelf.yMm, st.shelves.length, rect.widthMm⟩
             totalHeightMm := st.totalHeightMm + rect.heightMm
             maxUsedWidthMm := max st.maxUsedWidthMm rect.widthMm }
    | some bestShelfIndex =>
      let shelf := st.shelves.getD bestShelfIndex default
      let placementX := shelf.usedWidthMm
      let placements' := mapSet st.placements rect.id
        ⟨placementX, shelf.yMm, bestShelfIndex, rect.widthMm⟩
      let grownUsed := shelf.usedWidthMm + rect.widthMm
      let maxUsed := max st.maxUsedWidthMm grownUsed
      if rect.heightMm > shelf.heightMm then
        let delta := rect.heightMm - shelf.heightMm
        let shelves' :=
          st.shelves.set bestShelfIndex
            { shelf with usedWidthMm := grownUsed, heightMm := rect.heightMm }
        some { shelves := shiftAfter shelves' bestShelfIndex delta
               placements := placements'
               totalHeightMm := st.totalHeightMm + delta
               maxUsedWidthMm := maxUsed }
      else
        some { shelves := st.shelves.set bestShelfIndex { shelf with usedWidthMm := grownUsed }
               placements := placements'
               totalHeightMm := st.totalHeightMm
               maxUsedWidthMm := maxUsed }

/-- The annotated packing fold, from the empty initial state. -/
def packFoldA (rectangles : List PrintObject) (maxWidthMm : ℚ) : Option APackState :=
  rectangles.foldlM (packStepA maxWidthMm) ⟨[], [], 0, 0⟩

/-! ### Association-list lemmas -/

theorem mapSet_map {β γ : Type} (f : β → γ) (l : List (String × β)) (k : String) (v : β) :
    (mapSet l k v).map (fun p => (p.1, f p.2)) =
      mapSet (l.map fun p => (p.1, f p.2)) k (f v) := by
  induction l with
  | nil => simp [mapSet]
  | cons hd tl ih =>
    by_cases h : hd.1 = k
    · simp [mapSet, h]
    · simp [mapSet, h, ih]

theorem mem_mapSet {β : Type} {l : List (String × β)} {k : String} {v : β} {e : String × β}
    (he : e ∈ mapSet l k v) : e ∈ l ∨ e = (k, v) := by
  induction l with
  | nil => simpa [mapSet] using he
  | cons hd tl ih =>
    by_cases h : hd.1 = k
    · rw [mapSet, if_pos h] at he
      rcases List.mem_cons.mp he with he' | he'
      · right; simpa using he'
      · left; exact List.mem_cons_of_mem _ he'
    · rw [mapSet, if_neg h] at he
      rcases List.mem_cons.mp he with he' | he'
      · left; simp [he']
      · rcases ih he' with h' | h'
        · left; exact List.mem_cons_of_mem _ h'
        · right; exact h'

theorem keys_mapSet_mem {β : Type} {l : List (String × β)} {k : String} (v : β)
    (hk : k ∈ l.map Prod.fst) :
    (mapSet l k v).map Prod.fst = l.map Prod.fst := by
  induction l with
  | nil => simp at hk
  | cons hd tl ih =>
    by_cases h : hd.1 = k
    · simp [mapSet, h]
    · rw [List.map_cons] at hk
      rcases List.mem_cons.mp hk with h' | h'
      · exact absurd h'.symm h
      · simp [mapSet, h, ih h']

theorem keys_mapSet_not_mem {β : Type} {l : List (String × β)} {k : String} (v : β)
    (hk : k ∉ l.map Prod.fst) :
    (mapSet l k v).map Prod.fst = l.map Prod.fst ++ [k] := by
  induction l with
  | nil => simp [mapSet]
  | cons hd tl ih =>
    rw [List.map_cons, List.mem_cons] at hk
    push_neg at hk
    rw [mapSet, if_neg (fun h => hk.1 h.symm)]
    simp [ih hk.2]

theorem pairwise_mapSet {β : Type} {R : String × β → String × β → Prop}
    {l : List (String × β)} {k : String} {v : β}
    (hl : l.Pairwise R) (hv : ∀ e ∈ l, R e (k, v) ∧ R (k, v) e) :
    (mapSet l k v).Pairwise R := by
  induction l with
  | nil => simp [mapSet, List.pairwise_cons]
  | cons hd tl ih =>
    rcases List.pairwise_cons.mp hl with ⟨hhd, htl⟩
    by_cases h : hd.1 = k
    · rw [mapSet, if_pos h]
      refine List.pairwise_cons.mpr ⟨?_, htl⟩
      intro e he
      exact ((hv e (List.mem_cons_of_mem _ he)).2)
    · rw [mapSet, if_neg h]
      refine List.pairwise_cons.mpr ⟨?_, ih htl fun e he => hv e (List.mem_cons_of_mem _ he)⟩
      intro e he
      rcases mem_mapSet he with h' | h'
      · exact hhd e h'
      · rw [h']
        exact (hv hd (List.mem_cons_self _ _)).1

/-! ### Erasure: the annotated packer projects onto the real one -/

theorem erasePlacements_mapSet (l : List (String × APlacement)) (k : String) (v : APlacement) :
    erasePlacements (mapSet l k v) = mapSet (erasePlacements l) k (eraseGhost v) :=
  mapSet_map eraseGhost l k v

theorem packStep_eraseState (maxWidthMm : ℚ) (st : APackState) (rect : PrintObject) :
    packStep maxWidthMm (eraseState st) rect = (packStepA maxWidthMm st rect).map eraseState := by
  unfold packStep packStepA
  by_cases hguard : rect.widthMm > maxWidthMm + EPSILON
  · simp [hguard]
  · simp only [if_neg hguard, eraseState]
    cases hsel : selectShelf st.shelves rect.widthMm maxWidthMm with
    | none =>
      simp only [hsel, Option.map_some]
      refine congrArg some ?_
      simp [eraseState, erasePlacements_mapSet, eraseGhost]
    | some bestShelfIndex =>
      simp only [hsel]
      by_cases hgrow :
          rect.heightMm > (st.shelves.getD bestShelfIndex default).heightMm
      · simp only [if_pos hgrow, Option.map_some]
        refine congrArg some ?_
        simp [eraseState, erasePlacements_mapSet, eraseGhost]
      · simp only [if_neg hgrow, Option.map_some]
        refine congrArg some ?_
        simp [eraseState, erasePlacements_mapSet, eraseGhost]

theorem foldlM_packStep_eraseState (maxWidthMm : ℚ) (rectangles : List PrintObject) :
    ∀ st : APackState,
      rectangles.foldlM (packStep maxWidthMm) (eraseState st) =
        (rectangles.foldlM (packStepA maxWidthMm) st).map eraseState := by
  induction rectangles with
  | nil => intro st; simp
  | cons rect rest ih =>
    intro st
    rw [List.foldlM_cons, List.foldlM_cons, packStep_eraseState]
    cases h : packStepA maxWidthMm st rect with
    | none => simp
    | some st' => simpa using ih st'

/-- `packWithinWidth` is the ghost-erased image of the annotated fold. -/
theorem packWithinWidth_eq_packFoldA (rectangles : List PrintObject) (maxWidthMm : ℚ) :
    packWithinWidth rectangles maxWidthMm =
      (packFoldA rectangles maxWidthMm).map fun st =>
        let heightExtent :=
          match st.shelves.getLast? with
          | none => 0
          | some lastShelf => lastShelf.yMm + lastShelf.heightMm
        { placements := erasePlacements st.placements
          totalHeightMm := max st.totalHeightMm heightExtent
          usedWidthMm := min maxWidthMm st.maxUsedWidthMm : PackOutcome } := by
  unfold packWithinWidth packFoldA
  have h0 : (⟨[], [], 0, 0⟩ : PackState) = eraseState ⟨[], [], 0, 0⟩ := by
    simp [eraseState, erasePlacements]
  rw [h0, foldlM_packStep_eraseState]
  cases rectangles.foldlM (packStepA maxWidthMm) ⟨[], [], 0, 0⟩ with
  | none => simp
  | some st => simp [eraseState]

/-! ### Shelf-selection and shelf-list lemmas -/

theorem selectShelfAux_spec (w maxWidthMm : ℚ) :
    ∀ (shelves : List Shelf) (index : ℕ) (acc : Option (ℕ × ℚ)) (i : ℕ) (rem : ℚ),
      selectShelfAux w maxWidthMm shelves index acc = some (i, rem) →
      acc = some (i, rem) ∨
        ∃ (k : ℕ) (hk : k < shelves.length), i = index + k ∧
          shelves[k].usedWidthMm + w ≤ maxWidthMm + EPSILON := by
  intro shelves
  induction shelves with
  | nil =>
    intro index acc i rem h
    exact Or.inl h
  | cons shelf rest ih =>
    intro index acc i rem h
    simp only [selectShelfAux] at h
    rcases ih (index + 1) _ i rem h with hacc | ⟨k, hk, hik, hfit⟩
    · by_cases hfit0 : shelf.usedWidthMm + w ≤ maxWidthMm + EPSILON
      · rw [if_pos hfit0] at hacc
        cases acc with
        | none =>
          simp only [Option.some.injEq, Prod.mk.injEq] at hacc
          obtain ⟨hi, -⟩ := hacc
          right
          exact ⟨0, Nat.succ_pos _, by omega, by simpa using hfit0⟩
        | some best =>
          have hacc' : (if maxWidthMm - (shelf.usedWidthMm + w) < best.2 then
              some (index, maxWidthMm - (shelf.usedWidthMm + w))
            else some best) = some (i, rem) := hacc
          by_cases hlt : maxWidthMm - (shelf.usedWidthMm + w) < best.2
          · rw [if_pos hlt] at hacc'
            simp only [Option.some.injEq, Prod.mk.injEq] at hacc'
            obtain ⟨hi, -⟩ := hacc'
            right
            exact ⟨0, Nat.succ_pos _, by omega, by simpa using hfit0⟩
          · rw [if_neg hlt] at hacc'
            exact Or.inl hacc'
      · rw [if_neg hfit0] at hacc
        exact Or.inl hacc
    · right
      refine ⟨k + 1, Nat.succ_lt_succ hk, by omega, ?_⟩
      simpa using hfit

theorem selectShelf_spec {shelves : List Shelf} {w maxWidthMm : ℚ} {i : ℕ}
    (h : selectShelf shelves w maxWidthMm = some i) :
    ∃ hi : i < shelves.length, shelves[i].usedWidthMm + w ≤ maxWidthMm + EPSILON := by
  unfold selectShelf at h
  rcases Option.map_eq_some'.mp h with ⟨⟨i', rem⟩, haux, hfst⟩
  cases hfst
  rcases selectShelfAux_spec w maxWidthMm shelves 0 none i' rem haux with hacc | ⟨k, hk, hik, hfit⟩
  · exact absurd hacc (by simp)
  · subst hik
    simpa using ⟨hk, hfit⟩

theorem length_shiftAfter (shelves : List Shelf) (i : ℕ) (delta : ℚ) :
    (shiftAfter shelves i delta).length = shelves.length := by
  simp [shiftAfter]

theorem getElem_shiftAfter (shelves : List Shelf) (i : ℕ) (delta : ℚ) (j : ℕ)
    (hj : j < shelves.length) (hj2 : j < (shiftAfter shelves i delta).length) :
    (shiftAfter shelves i delta)[j] =
      if i < j then { shelves[j] with yMm := shelves[j].yMm + delta } else shelves[j] := by
  simp [shiftAfter]

theorem heightMm_map_shiftAfter (shelves : List Shelf) (i : ℕ) (delta : ℚ) :
    (shiftAfter shelves i delta).map Shelf.heightMm = shelves.map Shelf.heightMm := by
  apply List.ext_getElem
  · simp [length_shiftAfter]
  · intro j h1 h2
    have hj : j < shelves.length := by simpa using h2
    simp only [List.getElem_map, getElem_shiftAfter shelves i delta j hj (by simpa [length_shiftAfter] using hj)]
    by_cases hij : i < j <;> simp [hij]

theorem usedWidthMm_map_shiftAfter (shelves : List Shelf) (i : ℕ) (delta : ℚ) :
    (shiftAfter shelves i delta).map Shelf.usedWidthMm = shelves.map Shelf.usedWidthMm := by
  apply List.ext_getElem
  · simp [length_shiftAfter]
  · intro j h1 h2
    have hj : j < shelves.length := by simpa using h2
    simp only [List.getElem_map, getElem_shiftAfter shelves i delta j hj (by simpa [length_shiftAfter] using hj)]
    by_cases hij : i < j <;> simp [hij]

theorem sum_map_set {α : Type} (f : α → ℚ) :
    ∀ (l : List α) (i : ℕ) (a : α) (h : i < l.length),
      ((l.set i a).map f).sum = (l.map f).sum + f a - f l[i] := by
  intro l
  induction l with
  | nil => intro i a h; simp at h
  | cons hd tl ih =>
    intro i a h
    cases i with
    | zero => simp [List.set_cons_zero]; ring
    | succ i =>
      have hi : i < tl.length := by simpa using h
      simp only [List.set_cons_succ, List.map_cons, List.sum_cons, ih i a hi,
        List.getElem_cons_succ]
      ring

/-! ### Packer state invariant -/

/-- Bounds maintained for every shelf of the packing state. -/
def shelfOk (maxWidthMm : ℚ) (s : Shelf) : Prop :=
  0 ≤ s.heightMm ∧ 0 ≤ s.usedWidthMm ∧ s.usedWidthMm ≤ maxWidthMm + EPSILON
/-- Bounds maintained for every recorded placement: its shelf index is
valid and its x-range lies inside the used part of its shelf. -/
def entryOk (shelves : List Shelf) (e : APlacement) : Prop :=
  e.shelfIdx < shelves.length ∧ 0 ≤ e.xMm ∧ 0 ≤ e.rectWidth ∧
  e.xMm + e.rectWidth ≤ (shelves.getD e.shelfIdx default).usedWidthMm

/-- Two placements on the same shelf have disjoint half-open x-ranges. -/
def xRangesDisjoint (a b : APlacement) : Prop :=
  a.shelfIdx = b.shelfIdx → a.xMm + a.rectWidth ≤ b.xMm ∨ b.xMm + b.rectWidth ≤ a.xMm

/-- Total of `usedWidthMm * heightMm` over the shelves; the sum of the
packed rectangle areas never exceeds it. -/
def shelfAreaSum (shelves : List Shelf) : ℚ :=
  (shelves.map fun s => s.usedWidthMm * s.heightMm).sum

/-- Invariant of the packing loop state. -/
def AInv (maxWidthMm : ℚ) (st : APackState) : Prop :=
  (∀ s ∈ st.shelves, shelfOk maxWidthMm s) ∧
  (∀ e ∈ st.placements, entryOk st.shelves e.2) ∧
  st.placements.Pairwise (fun a b => xRangesDisjoint a.2 b.2) ∧
  st.totalHeightMm = (st.shelves.map Shelf.heightMm).sum

theorem map_shiftAfter (f : Shelf → ℚ)
    (hf : ∀ (s : Shelf) (d : ℚ), f { s with yMm := s.yMm + d } = f s)
    (shelves : List Shelf) (i : ℕ) (delta : ℚ) :
    (shiftAfter shelves i delta).map f = shelves.map f := by
  apply List.ext_getElem
  · simp [length_shiftAfter]
  · intro j h1 h2
    have hj : j < shelves.length := by simpa using h2
    simp only [List.getElem_map, getElem_shiftAfter shelves i delta j hj (by simpa [length_shiftAfter] using hj)]
    by_cases hij : i < j <;> simp [hij, hf]

theorem mem_shiftAfter_shape {s : Shelf} {shelves : List Shelf} {i : ℕ} {delta : ℚ}
    (hs : s ∈ shiftAfter shelves i delta) :
    ∃ s' ∈ shelves, s.heightMm = s'.heightMm ∧ s.usedWidthMm = s'.usedWidthMm := by
  rcases List.mem_iff_getElem.mp hs with ⟨j, hj, hget⟩
  have hj' : j < shelves.length := by simpa [length_shiftAfter] using hj
  rw [getElem_shiftAfter shelves i delta j hj' (by simpa [length_shiftAfter] using hj')] at hget
  refine ⟨shelves[j], List.getElem_mem hj', ?_⟩
  by_cases hij : i < j <;> simp [hij] at hget <;> simp [← hget]

theorem getD_eq_default {α : Type} [Inhabited α] (l : List α) (j : ℕ)
    (h : l.length ≤ j) : l.getD j default = default := by
  simp [List.getD, List.getElem?_eq_none h]

theorem getD_shiftAfter_used (shelves : List Shelf) (i : ℕ) (delta : ℚ) (j : ℕ) :
    ((shiftAfter shelves i delta).getD j default).usedWidthMm =
      (shelves.getD j default).usedWidthMm := by
  by_cases hj : j < shelves.length
  · rw [List.getD_eq_getElem _ _ (by simpa [length_shiftAfter] using hj),
      List.getD_eq_getElem _ _ hj, getElem_shiftAfter shelves i delta j hj (by simpa [length_shiftAfter] using hj)]
    by_cases hij : i < j <;> simp [hij]
  · rw [getD_eq_default _ _ (by simpa [length_shiftAfter] using le_of_not_lt hj),
      getD_eq_default _ _ (le_of_not_lt hj)]

theorem getD_set_self {α : Type} [Inhabited α] {l : List α} {i : ℕ} (a : α)
    (h : i < l.length) : (l.set i a).getD i default = a := by
  rw [List.getD_eq_getElem _ _ (by simpa using h), List.getElem_set_self]

theorem getD_set_ne {α : Type} [Inhabited α] (l : List α) {i j : ℕ} (a : α)
    (h : i ≠ j) : (l.set i a).getD j default = l.getD j default := by
  by_cases hj : j < l.length
  · rw [List.getD_eq_getElem _ _ (by simpa using hj), List.getD_eq_getElem _ _ hj,
      List.getElem_set_ne h]
  · rw [getD_eq_default _ _ (by simpa using le_of_not_lt hj),
      getD_eq_default _ _ (le_of_not_lt hj)]

theorem getD_append_left {α : Type} [Inhabited α] (l l' : List α) (j : ℕ)
    (h : j < l.length) : (l ++ l').getD j default = l.getD j default := by
  rw [List.getD_eq_getElem _ _ (by simp; omega), List.getD_eq_getElem _ _ h,
    List.getElem_append_left h]

theorem getD_concat_self {α : Type} [Inhabited α] (l : List α) (a : α) :
    (l ++ [a]).getD l.length default = a := by
  rw [List.getD_eq_getElem _ _ (by simp), List.getElem_concat_length _ _ _ rfl]

theorem entryOk_of_used_mono {shelves shelves' : List Shelf} {e : APlacement}
    (hlen : shelves'.length = shelves.length)
    (hused : ∀ j : ℕ, j < shelves.length →
      (shelves.getD j default).usedWidthMm ≤ (shelves'.getD j default).usedWidthMm)
    (he : entryOk shelves e) : entryOk shelves' e := by
  obtain ⟨hidx, hx, hw, hbound⟩ := he
  exact ⟨by omega, hx, hw, le_trans hbound (hused e.shelfIdx hidx)⟩

theorem packStepA_eq_guard {maxWidthMm : ℚ} {st : APackState} {rect : PrintObject}
    (hg : rect.widthMm > maxWidthMm + EPSILON) :
    packStepA maxWidthMm st rect = none := by
  simp [packStepA, hg]

theorem packStepA_eq_newShelf {maxWidthMm : ℚ} {st : APackState} {rect : PrintObject}
    (hg : ¬ rect.widthMm > maxWidthMm + EPSILON)
    (hsel : selectShelf st.shelves rect.widthMm maxWidthMm = none) :
    packStepA maxWidthMm st rect = some
      { shelves := st.shelves ++ [⟨st.totalHeightMm, rect.heightMm, rect.widthMm⟩]
        placements := mapSet st.placements rect.id
          ⟨0, st.totalHeightMm, st.shelves.length, rect.widthMm⟩
        totalHeightMm := st.totalHeightMm + rect.heightMm
        maxUsedWidthMm := max st.maxUsedWidthMm rect.widthMm } := by
  simp [packStepA, hg, hsel]

theorem packStepA_eq_grow {maxWidthMm : ℚ} {st : APackState} {rect : PrintObject} {best : ℕ}
    (hg : ¬ rect.widthMm > maxWidthMm + EPSILON)
    (hsel : selectShelf st.shelves rect.widthMm maxWidthMm = some best)
    (hbest : best < st.shelves.length)
    (hgrow : rect.heightMm > st.shelves[best].heightMm) :
    packStepA maxWidthMm st rect = some
      { shelves := shiftAfter
          (st.shelves.set best
            ⟨st.shelves[best].yMm, rect.heightMm,
              st.shelves[best].usedWidthMm + rect.widthMm⟩)
          best (rect.heightMm - st.shelves[best].heightMm)
        placements := mapSet st.placements rect.id
          ⟨st.shelves[best].usedWidthMm, st.shelves[best].yMm, best, rect.widthMm⟩
        totalHeightMm := st.totalHeightMm + (rect.heightMm - st.shelves[best].heightMm)
        maxUsedWidthMm := max st.maxUsedWidthMm
          (st.shelves[best].usedWidthMm + rect.widthMm) } := by
  simp [packStepA, hg, hsel, List.getElem?_eq_getElem hbest, hgrow]

theorem packStepA_eq_nogrow {maxWidthMm : ℚ} {st : APackState} {rect : PrintObject} {best : ℕ}
    (hg : ¬ rect.widthMm > maxWidthMm + EPSILON)
    (hsel : selectShelf st.shelves rect.widthMm maxWidthMm = some best)
    (hbest : best < st.shelves.length)
    (hgrow : ¬ rect.heightMm > st.shelves[best].heightMm) :
    packStepA maxWidthMm st rect = some
      { shelves := st.shelves.set best
          ⟨st.shelves[best].yMm, st.shelves[best].heightMm,
            st.shelves[best].usedWidthMm + rect.widthMm⟩
        placements := mapSet st.placements rect.id
          ⟨st.shelves[best].usedWidthMm, st.shelves[best].yMm, best, rect.widthMm⟩
        totalHeightMm := st.totalHeightMm
        maxUsedWidthMm := max st.maxUsedWidthMm
          (st.shelves[best].usedWidthMm + rect.widthMm) } := by
  simp [packStepA, hg, hsel, List.getElem?_eq_getElem hbest, hgrow]

/-- One step of the packing loop preserves the invariant, grows the shelf
area total by at least the rectangle's area, and adds at most the one new
placement entry. -/
theorem packStepA_inv {maxWidthMm : ℚ} {st st' : APackState} {rect : PrintObject}
    (hw : 0 ≤ rect.widthMm) (hh : 0 ≤ rect.heightMm)
    (hinv : AInv maxWidthMm st)
    (hstep : packStepA maxWidthMm st rect = some st') :
    AInv maxWidthMm st' ∧
    shelfAreaSum st.shelves + rect.widthMm * rect.heightMm ≤ shelfAreaSum st'.shelves ∧
    (∀ e ∈ st'.placements, e ∈ st.placements ∨
      (e.1 = rect.id ∧ e.2.rectWidth = rect.widthMm)) := by
  obtain ⟨hShelves, hEntries, hPairwise, hTotal⟩ := hinv
  by_cases hguard : rect.widthMm > maxWidthMm + EPSILON
  · rw [packStepA_eq_guard hguard] at hstep
    exact absurd hstep (by simp)
  cases hsel : selectShelf st.shelves rect.widthMm maxWidthMm with
  | none =>
    rw [packStepA_eq_newShelf hguard hsel] at hstep
    obtain rfl := (Option.some.inj hstep).symm
    push_neg at hguard
    refine ⟨⟨?_, ?_, ?_, ?_⟩, ?_, ?_⟩
    · intro s hs
      rcases List.mem_append.mp hs with hs | hs
      · exact hShelves s hs
      · rcases List.mem_singleton.mp hs with rfl
        exact ⟨hh, hw, hguard⟩
    · intro e he
      rcases mem_mapSet he with he | rfl
      · obtain ⟨hidx, hx, hww, hbound⟩ := hEntries e he
        refine ⟨by simp only [List.length_append, List.length_singleton]; omega, hx, hww, ?_⟩
        rwa [getD_append_left _ _ _ hidx]
    
      · refine ⟨by simp, le_refl 0, hw, ?_⟩
        show (0 : ℚ) + rect.widthMm ≤
          ((st.shelves ++ [_]).getD st.shelves.length default).usedWidthMm
        rw [getD_concat_self]
        simp
    · refine pairwise_mapSet hPairwise ?_
      intro e he
      obtain ⟨hidx, -, -, -⟩ := hEntries e he
      constructor
      · intro heq
        have heq' : e.2.shelfIdx = st.shelves.length := heq
        exact absurd heq' (by omega)
      · intro heq
        have heq' : e.2.shelfIdx = st.shelves.length := heq.symm
        exact absurd heq' (by omega)
    · simp only [List.map_append, List.sum_append, List.map_cons, List.map_nil,
        List.sum_cons, List.sum_nil, hTotal]
      simp
    · simp only [shelfAreaSum, List.map_append, List.sum_append, List.map_cons,
        List.map_nil, List.sum_cons, List.sum_nil]
      simp
    · intro e he
      rcases mem_mapSet he with he | rfl
      · exact Or.inl he
      · exact Or.inr ⟨rfl, rfl⟩
  | some best =>
    obtain ⟨hbest, hfit⟩ := selectShelf_spec hsel
    have hShelfOkBest := hShelves st.shelves[best] (List.getElem_mem hbest)
    obtain ⟨hbh, hbu, hbmax⟩ := hShelfOkBest
    have hgetDbest : st.shelves.getD best default = st.shelves[best] :=
      List.getD_eq_getElem st.shelves default hbest
    by_cases hgrow : rect.heightMm > st.shelves[best].heightMm
    · rw [packStepA_eq_grow hguard hsel hbest hgrow] at hstep
      obtain rfl := (Option.some.inj hstep).symm
      push_neg at hguard
      set S : Shelf :=
        ⟨st.shelves[best].yMm, rect.heightMm,
          st.shelves[best].usedWidthMm + rect.widthMm⟩ with hS
      set delta : ℚ := rect.heightMm - st.shelves[best].heightMm with hdelta
      have hlen : (shiftAfter (st.shelves.set best S) best delta).length =
          st.shelves.length := by
        simp [length_shiftAfter]
      refine ⟨⟨?_, ?_, ?_, ?_⟩, ?_, ?_⟩
      · intro s hs
        rcases mem_shiftAfter_shape hs with ⟨s', hs', hsh, hsu⟩
        rcases List.mem_or_eq_of_mem_set hs' with hs'' | rfl
        · obtain ⟨h1, h2, h3⟩ := hShelves s' hs''
          exact ⟨hsh ▸ h1, hsu ▸ h2, hsu ▸ h3⟩
        · refine ⟨hsh ▸ hh, hsu ▸ ?_, hsu ▸ ?_⟩
          · simp only [hS]
            positivity
          · simpa [hS] using hfit
      · intro e he
        rcases mem_mapSet he with he | rfl
        · refine entryOk_of_used_mono hlen ?_ (hEntries e he)
          intro j hj
          rw [getD_shiftAfter_used]
          by_cases hjb : j = best
          · subst hjb
            rw [getD_set_self S hbest, hgetDbest]
            simp only [hS]
            linarith
          · rw [getD_set_ne _ S (fun h => hjb h.symm)]
        · refine ⟨by simpa [hlen] using hbest, hbu, hw, ?_⟩
          show st.shelves[best].usedWidthMm + rect.widthMm ≤
            (((shiftAfter (st.shelves.set best S) best delta)).getD best default).usedWidthMm
          rw [getD_shiftAfter_used, getD_set_self S hbest]
      · refine pairwise_mapSet hPairwise ?_
        intro e he
        obtain ⟨hidx, hx, hww, hbound⟩ := hEntries e he
        constructor
        · intro heq
          left
          have heq' : e.2.shelfIdx = best := heq
          rw [heq', List.getD_eq_getElem st.shelves default hbest] at hbound
          exact hbound
        · intro heq
          right
          have heq' : e.2.shelfIdx = best := heq.symm
          rw [heq', List.getD_eq_getElem st.shelves default hbest] at hbound
          exact hbound
      · have hmap : (shiftAfter (st.shelves.set best S) best delta).map Shelf.heightMm =
            (st.shelves.set best S).map Shelf.heightMm :=
          map_shiftAfter Shelf.heightMm (by intro s d; rfl) _ _ _
        show st.totalHeightMm + delta = _
        simp only [hmap, sum_map_set Shelf.heightMm st.shelves best S hbest, hTotal]
        simp only [hS, hdelta]
        ring
      · have hmap : (shiftAfter (st.shelves.set best S) best delta).map
              (fun s => s.usedWidthMm * s.heightMm) =
            (st.shelves.set best S).map (fun s => s.usedWidthMm * s.heightMm) :=
          map_shiftAfter _ (by intro s d; rfl) _ _ _
        show shelfAreaSum st.shelves + rect.widthMm * rect.heightMm ≤ shelfAreaSum _
        simp only [shelfAreaSum, hmap,
          sum_map_set (fun s => s.usedWidthMm * s.heightMm) st.shelves best S hbest]
        have hSu : S.usedWidthMm = st.shelves[best].usedWidthMm + rect.widthMm := by rw [hS]
        have hSh : S.heightMm = rect.heightMm := by rw [hS]
        nlinarith [mul_nonneg hbu (sub_nonneg.mpr (le_of_lt hgrow))]
      · intro e he
        rcases mem_mapSet he with he | rfl
        · exact Or.inl he
        · exact Or.inr ⟨rfl, rfl⟩
    · rw [packStepA_eq_nogrow hguard hsel hbest hgrow] at hstep
      obtain rfl := (Option.some.inj hstep).symm
      push_neg at hguard
      push_neg at hgrow
      set S : Shelf :=
        ⟨st.shelves[best].yMm, st.shelves[best].heightMm,
          st.shelves[best].usedWidthMm + rect.widthMm⟩ with hS
      refine ⟨⟨?_, ?_, ?_, ?_⟩, ?_, ?_⟩
      · intro s hs
        rcases List.mem_or_eq_of_mem_set hs with hs' | rfl
        · exact hShelves s hs'
        · exact ⟨hbh, by positivity, by simpa [hS] using hfit⟩
      · intro e he
        rcases mem_mapSet he with he | rfl
        · refine entryOk_of_used_mono (by simp) ?_ (hEntries e he)
          intro j hj
          by_cases hjb : j = best
          · subst hjb
            rw [getD_set_self S hbest, hgetDbest]
            simp only [hS]
            linarith
          · rw [getD_set_ne _ S (fun h => hjb h.symm)]
        · refine ⟨by simpa using hbest, hbu, hw, ?_⟩
          show st.shelves[best].usedWidthMm + rect.widthMm ≤
            ((st.shelves.set best S).getD best default).usedWidthMm
          rw [getD_set_self S hbest]
      · refine pairwise_mapSet hPairwise ?_
        intro e he
        obtain ⟨hidx, hx, hww, hbound⟩ := hEntries e he
        constructor
        · intro heq
          left
          have heq' : e.2.shelfIdx = best := heq
          rw [heq', List.getD_eq_getElem st.shelves default hbest] at hbound
          exact hbound
        · intro heq
          right
          have heq' : e.2.shelfIdx = best := heq.symm
          rw [heq', List.getD_eq_getElem st.shelves default hbest] at hbound
          exact hbound
      · show st.totalHeightMm = _
        simp only [sum_map_set Shelf.heightMm st.shelves best S hbest, hTotal]
        simp [hS]
      · show shelfAreaSum st.shelves + rect.widthMm * rect.heightMm ≤ shelfAreaSum _
        simp only [shelfAreaSum,
          sum_map_set (fun s => s.usedWidthMm * s.heightMm) st.shelves best S hbest]
        have hSu : S.usedWidthMm = st.shelves[best].usedWidthMm + rect.widthMm := by rw [hS]
        have hSh : S.heightMm = st.shelves[best].heightMm := by rw [hS]
        nlinarith [mul_nonneg hw (sub_nonneg.mpr hgrow)]
      · intro e he
        rcases mem_mapSet he with he | rfl
        · exact Or.inl he
        · exact Or.inr ⟨rfl, rfl⟩
/-- Running the packing loop from any invariant state preserves the
invariant, grows the shelf area total by at least the total rectangle area,
and every placement entry comes from the initial state or from one of the
processed rectangles. -/
theorem packFoldA_run {maxWidthMm : ℚ} :
    ∀ (rects : List PrintObject) (st st' : APackState),
      (∀ r ∈ rects, 0 ≤ r.widthMm ∧ 0 ≤ r.heightMm) →
      AInv maxWidthMm st →
      rects.foldlM (packStepA maxWidthMm) st = some st' →
      AInv maxWidthMm st' ∧
      shelfAreaSum st.shelves + (rects.map fun r => r.widthMm * r.heightMm).sum ≤
        shelfAreaSum st'.shelves ∧
      (∀ e ∈ st'.placements, e ∈ st.placements ∨
        ∃ r ∈ rects, e.1 = r.id ∧ e.2.rectWidth = r.widthMm) := by
  intro rects
  induction rects with
  | nil =>
    intro st st' _ hinv hfold
    obtain rfl : st = st' := by simpa using hfold
    exact ⟨hinv, by simp, fun e he => Or.inl he⟩
  | cons r rest ih =>
    intro st st' hdims hinv hfold
    rw [List.foldlM_cons] at hfold
    cases hstep : packStepA maxWidthMm st r with
    | none =>
      rw [hstep] at hfold
      simp at hfold
    | some st1 =>
      rw [hstep] at hfold
      simp only [Option.bind_eq_bind, Option.some_bind] at hfold
      obtain ⟨hinv1, harea1, hprov1⟩ :=
        packStepA_inv (hdims r (List.mem_cons_self r rest)).1
          (hdims r (List.mem_cons_self r rest)).2 hinv hstep
      obtain ⟨hinv', harea', hprov'⟩ :=
        ih st1 st' (fun r' hr' => hdims r' (List.mem_cons_of_mem r hr')) hinv1 hfold
      refine ⟨hinv', ?_, ?_⟩
      · simp only [List.map_cons, List.sum_cons]
        linarith
      · intro e he
        rcases hprov' e he with he1 | ⟨r', hr', h1, h2⟩
        · rcases hprov1 e he1 with he2 | ⟨h1, h2⟩
          · exact Or.inl he2
          · exact Or.inr ⟨r, List.mem_cons_self r rest, h1, h2⟩
        · exact Or.inr ⟨r', List.mem_cons_of_mem r hr', h1, h2⟩

/-- The invariant holds of the empty initial state. -/
theorem AInv_init (maxWidthMm : ℚ) : AInv maxWidthMm ⟨[], [], 0, 0⟩ := by
  refine ⟨?_, ?_, ?_, ?_⟩ <;> simp [AInv]

/-- Specification of a completed annotated packing run. -/
theorem packFoldA_spec {rectangles : List PrintObject} {maxWidthMm : ℚ} {st' : APackState}
    (hdims : ∀ r ∈ rectangles, 0 ≤ r.widthMm ∧ 0 ≤ r.heightMm)
    (h : packFoldA rectangles maxWidthMm = some st') :
    AInv maxWidthMm st' ∧
    (rectangles.map fun r => r.widthMm * r.heightMm).sum ≤ shelfAreaSum st'.shelves ∧
    (∀ e ∈ st'.placements, ∃ r ∈ rectangles, e.1 = r.id ∧ e.2.rectWidth = r.widthMm) := by
  obtain ⟨hinv, harea, hprov⟩ :=
    packFoldA_run rectangles ⟨[], [], 0, 0⟩ st' hdims (AInv_init maxWidthMm) h
  refine ⟨hinv, by simpa [shelfAreaSum] using harea, ?_⟩
  intro e he
  rcases hprov e he with he0 | h'
  · simp at he0
  · exact h'

/-- The shelf area total is bounded by the usable width (with tolerance)
times the total shelf height. -/
theorem shelfAreaSum_le {maxWidthMm : ℚ} {shelves : List Shelf} (hW : 0 ≤ maxWidthMm)
    (h : ∀ s ∈ shelves, shelfOk maxWidthMm s) :
    shelfAreaSum shelves ≤ (maxWidthMm + EPSILON) * (shelves.map Shelf.heightMm).sum := by
  induction shelves with
  | nil => simp [shelfAreaSum]
  | cons s l ih =>
    obtain ⟨hh, hu, hmax⟩ := h s (List.mem_cons_self s l)
    have ih' := ih fun s' hs' => h s' (List.mem_cons_of_mem s hs')
    simp only [shelfAreaSum, List.map_cons, List.sum_cons] at *
    have h1 : s.usedWidthMm * s.heightMm ≤ (maxWidthMm + EPSILON) * s.heightMm :=
      mul_le_mul_of_nonneg_right hmax hh
    nlinarith

/-- Total shelf height is nonnegative. -/
theorem heights_sum_nonneg {maxWidthMm : ℚ} {shelves : List Shelf}
    (h : ∀ s ∈ shelves, shelfOk maxWidthMm s) :
    0 ≤ (shelves.map Shelf.heightMm).sum := by
  apply List.sum_nonneg
  intro x hx
  rcases List.mem_map.mp hx with ⟨s, hs, rfl⟩
  exact (h s hs).1

/-! ### Failure and key-set lemmas for the packer -/

theorem packStepA_isSome {maxWidthMm : ℚ} {st : APackState} {rect : PrintObject}
    (hg : ¬ rect.widthMm > maxWidthMm + EPSILON) :
    (packStepA maxWidthMm st rect).isSome := by
  cases hsel : selectShelf st.shelves rect.widthMm maxWidthMm with
  | none => rw [packStepA_eq_newShelf hg hsel]; rfl
  | some best =>
    obtain ⟨hbest, -⟩ := selectShelf_spec hsel
    by_cases hgrow : rect.heightMm > st.shelves[best].heightMm
    · rw [packStepA_eq_grow hg hsel hbest hgrow]; rfl
    · rw [packStepA_eq_nogrow hg hsel hbest hgrow]; rfl

theorem packStepA_none_iff {maxWidthMm : ℚ} {st : APackState} {rect : PrintObject} :
    packStepA maxWidthMm st rect = none ↔ maxWidthMm + EPSILON < rect.widthMm := by
  constructor
  · intro h
    by_contra hg
    have := @packStepA_isSome maxWidthMm st rect hg
    rw [h] at this
    simp at this
  · intro h
    exact packStepA_eq_guard h

theorem packStepA_placements {maxWidthMm : ℚ} {st st' : APackState} {rect : PrintObject}
    (h : packStepA maxWidthMm st rect = some st') :
    ∃ v, st'.placements = mapSet st.placements rect.id v := by
  by_cases hg : rect.widthMm > maxWidthMm + EPSILON
  · rw [packStepA_eq_guard hg] at h
    exact absurd h (by simp)
  cases hsel : selectShelf st.shelves rect.widthMm maxWidthMm with
  | none =>
    rw [packStepA_eq_newShelf hg hsel] at h
    exact ⟨_, by rw [← Option.some.inj h]⟩
  | some best =>
    obtain ⟨hbest, -⟩ := selectShelf_spec hsel
    by_cases hgrow : rect.heightMm > st.shelves[best].heightMm
    · rw [packStepA_eq_grow hg hsel hbest hgrow] at h
      exact ⟨_, by rw [← Option.some.inj h]⟩
    · rw [packStepA_eq_nogrow hg hsel hbest hgrow] at h
      exact ⟨_, by rw [← Option.some.inj h]⟩

theorem packFoldA_from_none_iff {maxWidthMm : ℚ} :
    ∀ (rects : List PrintObject) (st : APackState),
      rects.foldlM (packStepA maxWidthMm) st = none ↔
        ∃ r ∈ rects, maxWidthMm + EPSILON < r.widthMm := by
  intro rects
  induction rects with
  | nil => intro st; simp
  | cons r rest ih =>
    intro st
    rw [List.foldlM_cons]
    cases hstep : packStepA maxWidthMm st r with
    | none =>
      have hr := packStepA_none_iff.mp hstep
      simp only [Option.bind_eq_bind, Option.none_bind]
      constructor
      · intro _
        exact ⟨r, List.mem_cons_self r rest, hr⟩
      · intro _
        trivial
    | some st1 =>
      have hr : ¬ maxWidthMm + EPSILON < r.widthMm := by
        intro hcon
        rw [packStepA_none_iff.mpr hcon] at hstep
        simp at hstep
      simp only [Option.bind_eq_bind, Option.some_bind, ih st1]
      constructor
      · intro ⟨r', hr', hw⟩
        exact ⟨r', List.mem_cons_of_mem r hr', hw⟩
      · intro ⟨r', hr', hw⟩
        rcases List.mem_cons.mp hr' with rfl | hr''
        · exact absurd hw hr
        · exact ⟨r', hr'', hw⟩

/-- `packWithinWidth` fails exactly when some rectangle is wider than the
bound plus tolerance. -/
theorem packWithinWidth_none_iff (rectangles : List PrintObject) (maxWidthMm : ℚ) :
    packWithinWidth rectangles maxWidthMm = none ↔
      ∃ r ∈ rectangles, maxWidthMm + EPSILON < r.widthMm := by
  rw [packWithinWidth_eq_packFoldA, Option.map_eq_none']
  exact packFoldA_from_none_iff rectangles ⟨[], [], 0, 0⟩

theorem keys_erasePlacements (l : List (String × APlacement)) :
    (erasePlacements l).map Prod.fst = l.map Prod.fst := by
  simp [erasePlacements]

theorem packFoldA_keys {maxWidthMm : ℚ} :
    ∀ (rects : List PrintObject) (st st' : APackState),
      (∀ r ∈ rects, r.id ∉ st.placements.map Prod.fst) →
      (rects.map (fun r => r.id)).Nodup →
      rects.foldlM (packStepA maxWidthMm) st = some st' →
      st'.placements.map Prod.fst =
        st.placements.map Prod.fst ++ rects.map (fun r => r.id) := by
  intro rects
  induction rects with
  | nil =>
    intro st st' _ _ hfold
    obtain rfl : st = st' := by simpa using hfold
    simp
  | cons r rest ih =>
    intro st st' hfresh hnodup hfold
    rw [List.foldlM_cons] at hfold
    cases hstep : packStepA maxWidthMm st r with
    | none =>
      rw [hstep] at hfold
      simp at hfold
    | some st1 =>
      rw [hstep] at hfold
      simp only [Option.bind_eq_bind, Option.some_bind] at hfold
      obtain ⟨v, hv⟩ := packStepA_placements hstep
      have hkeys1 : st1.placements.map Prod.fst = st.placements.map Prod.fst ++ [r.id] := by
        rw [hv]
        exact keys_mapSet_not_mem v (hfresh r (List.mem_cons_self r rest))
      simp only [List.map_cons, List.nodup_cons] at hnodup
      have hfresh1 : ∀ r' ∈ rest, r'.id ∉ st1.placements.map Prod.fst := by
        intro r' hr'
        rw [hkeys1]
        intro hmem
        rcases List.mem_append.mp hmem with hmem | hmem
        · exact hfresh r' (List.mem_cons_of_mem r hr') hmem
        · rcases List.mem_singleton.mp hmem with heq
          exact hnodup.1 (heq ▸ List.mem_map_of_mem (fun r => r.id) hr')
      rw [ih st1 st' hfresh1 hnodup.2 hfold, hkeys1]
      simp

/-! ### Optimiser lemmas -/

theorem totalRectArea_eq (l : List PrintObject) :
    totalRectArea l = (l.map fun r => r.widthMm * r.heightMm).sum := by
  suffices h : ∀ a : ℚ, l.foldl (fun sum rect => sum + rect.widthMm * rect.heightMm) a =
      a + (l.map fun r => r.widthMm * r.heightMm).sum by
    simpa [totalRectArea] using h 0
  induction l with
  | nil => intro a; simp
  | cons r rest ih =>
    intro a
    simp only [List.foldl_cons, List.map_cons, List.sum_cons, ih]
    ring

theorem le_foldl_max (l : List PrintObject) :
    ∀ a : ℚ, a ≤ l.foldl (fun m rect => max m rect.widthMm) a := by
  induction l with
  | nil => intro a; simp
  | cons r rest ih =>
    intro a
    exact le_trans (le_max_left a r.widthMm) (ih (max a r.widthMm))

theorem mem_le_foldl_max (l : List PrintObject) :
    ∀ (a : ℚ), ∀ r ∈ l, r.widthMm ≤ l.foldl (fun m rect => max m rect.widthMm) a := by
  induction l with
  | nil => intro a r hr; simp at hr
  | cons r0 rest ih =>
    intro a r hr
    rcases List.mem_cons.mp hr with rfl | hr'
    · exact le_trans (le_max_right a r.widthMm) (le_foldl_max rest (max a r.widthMm))
    · exact ih (max a r0.widthMm) r hr'

theorem foldl_max_le (l : List PrintObject) :
    ∀ (a B : ℚ), a ≤ B → (∀ r ∈ l, r.widthMm ≤ B) →
      l.foldl (fun m rect => max m rect.widthMm) a ≤ B := by
  induction l with
  | nil => intro a B ha _; simpa using ha
  | cons r rest ih =>
    intro a B ha hall
    exact ih (max a r.widthMm) B
      (max_le ha (hall r (List.mem_cons_self r rest)))
      (fun r' hr' => hall r' (List.mem_cons_of_mem r hr'))

theorem maxWidthRequirement_ge {l : List PrintObject} {r : PrintObject} (hr : r ∈ l) :
    r.widthMm ≤ maxWidthRequirement l :=
  mem_le_foldl_max l 0 r hr

theorem maxWidthRequirement_nonneg (l : List PrintObject) : 0 ≤ maxWidthRequirement l :=
  le_foldl_max l 0

theorem maxWidthRequirement_le {l : List PrintObject} {B : ℚ} (hB : 0 ≤ B)
    (h : ∀ r ∈ l, r.widthMm ≤ B) : maxWidthRequirement l ≤ B :=
  foldl_max_le l 0 B hB h

/-- Every rectangle fits in the layout width at the minimum column count. -/
theorem minimumColumns_fits {sorted : List PrintObject} {sheetWidthMm : ℚ}
    (hW : 0 < sheetWidthMm) {r : PrintObject} (hr : r ∈ sorted) :
    r.widthMm ≤ (minimumColumns sorted sheetWidthMm : ℚ) * sheetWidthMm := by
  have h1 : r.widthMm ≤ maxWidthRequirement sorted := maxWidthRequirement_ge hr
  have h2 : (⌈maxWidthRequirement sorted / sheetWidthMm⌉ : ℚ) ≥
      maxWidthRequirement sorted / sheetWidthMm := Int.le_ceil _
  have h3 : (⌈maxWidthRequirement sorted / sheetWidthMm⌉ : ℤ) ≤
      (minimumColumns sorted sheetWidthMm : ℤ) := by
    unfold minimumColumns
    have := Int.self_le_toNat ⌈maxWidthRequirement sorted / sheetWidthMm⌉
    omega
  have h4 : (⌈maxWidthRequirement sorted / sheetWidthMm⌉ : ℚ) ≤
      (minimumColumns sorted sheetWidthMm : ℚ) := by
    exact_mod_cast h3
  have h5 : maxWidthRequirement sorted / sheetWidthMm ≤
      (minimumColumns sorted sheetWidthMm : ℚ) := le_trans h2 h4
  have h6 : maxWidthRequirement sorted ≤
      (minimumColumns sorted sheetWidthMm : ℚ) * sheetWidthMm := by
    rw [div_le_iff hW] at h5
    linarith
  linarith

theorem one_le_minimumColumns (sorted : List PrintObject) (sheetWidthMm : ℚ) :
    1 ≤ minimumColumns sorted sheetWidthMm :=
  le_max_left 1 _

/-- When every rectangle is at most `24 * sheetWidthMm` wide, the minimum
column count is at most 24. -/
theorem minimumColumns_le_24 {sorted : List PrintObject} {sheetWidthMm : ℚ}
    (hW : 0 < sheetWidthMm)
    (hwid : ∀ r ∈ sorted, r.widthMm ≤ 24 * sheetWidthMm) :
    minimumColumns sorted sheetWidthMm ≤ 24 := by
  have h1 : maxWidthRequirement sorted ≤ 24 * sheetWidthMm :=
    maxWidthRequirement_le (by positivity) hwid
  have h2 : maxWidthRequirement sorted / sheetWidthMm ≤ (24 : ℚ) := by
    rw [div_le_iff hW]
    linarith
  have h3 : ⌈maxWidthRequirement sorted / sheetWidthMm⌉ ≤ (24 : ℤ) := by
    rw [Int.ceil_le]
    exact_mod_cast h2
  unfold minimumColumns
  omega

/-- When some rectangle is wider than `24 * sheetWidthMm`, the minimum
column count exceeds 24. -/
theorem minimumColumns_gt_24 {sorted : List PrintObject} {sheetWidthMm : ℚ}
    (hW : 0 < sheetWidthMm) {r : PrintObject} (hr : r ∈ sorted)
    (hwide : 24 * sheetWidthMm < r.widthMm) :
    24 < minimumColumns sorted sheetWidthMm := by
  have h1 : 24 * sheetWidthMm < maxWidthRequirement sorted :=
    lt_of_lt_of_le hwide (maxWidthRequirement_ge hr)
  have h2 : (24 : ℚ) < maxWidthRequirement sorted / sheetWidthMm := by
    rw [lt_div_iff hW]
    linarith
  have h3 : (24 : ℤ) < ⌈maxWidthRequirement sorted / sheetWidthMm⌉ := by
    have := Int.le_ceil (maxWidthRequirement sorted / sheetWidthMm)
    by_contra hcon
    push_neg at hcon
    have : (⌈maxWidthRequirement sorted / sheetWidthMm⌉ : ℚ) ≤ 24 := by exact_mod_cast hcon
    linarith
  unfold minimumColumns
  omega

/-- Candidates recorded by the column-search fold. -/
def GoodR (sorted : List PrintObject) (totalArea sheetWidthMm sheetHeightMm : ℚ)
    (lo hi : ℕ) (r : PackingResult) : Prop :=
  lo ≤ r.columns ∧ r.columns ≤ hi ∧
  ∃ packing, packWithinWidth sorted ((r.columns : ℚ) * sheetWidthMm) = some packing ∧
    r.rows = max 1 ⌈packing.totalHeightMm / sheetHeightMm⌉.toNat ∧
    r.placements = packing.placements ∧
    r.wasteArea =
      (r.columns : ℚ) * (r.rows : ℚ) * sheetWidthMm * sheetHeightMm - totalArea

theorem considerColumn_good {sorted : List PrintObject}
    {totalArea sheetWidthMm sheetHeightMm : ℚ} {lo hi c : ℕ}
    {best : Option PackingResult}
    (hbest : ∀ b, best = some b → GoodR sorted totalArea sheetWidthMm sheetHeightMm lo hi b)
    (hlo : lo ≤ c) (hhi : c ≤ hi) :
    ∀ b', considerColumn sorted totalArea sheetWidthMm sheetHeightMm best c = some b' →
      GoodR sorted totalArea sheetWidthMm sheetHeightMm lo hi b' := by
  intro b' h
  simp only [considerColumn] at h
  revert h
  cases hpack : packWithinWidth sorted ((c : ℚ) * sheetWidthMm) with
  | none =>
    intro h
    exact hbest b' h
  | some packing =>
    intro h
    cases best with
    | none =>
      simp only [Option.some.injEq] at h
      subst h
      exact ⟨hlo, hhi, packing, hpack, rfl, rfl, rfl⟩
    | some b =>
      simp only at h
      split at h
      · simp only [Option.some.injEq] at h
        subst h
        exact ⟨hlo, hhi, packing, hpack, rfl, rfl, rfl⟩
      · simp only [Option.some.injEq] at h
        subst h
        exact hbest b rfl

theorem considerColumn_isSome_of_best {sorted : List PrintObject}
    {totalArea sheetWidthMm sheetHeightMm : ℚ} {c : ℕ} {best : Option PackingResult}
    (h : best.isSome) :
    (considerColumn sorted totalArea sheetWidthMm sheetHeightMm best c).isSome := by
  simp only [considerColumn]
  cases hpack : packWithinWidth sorted ((c : ℚ) * sheetWidthMm) with
  | none => exact h
  | some packing =>
    cases best with
    | none => simp at h
    | some b =>
      simp only
      split <;> rfl

theorem considerColumn_isSome_of_pack {sorted : List PrintObject}
    {totalArea sheetWidthMm sheetHeightMm : ℚ} {c : ℕ} {best : Option PackingResult}
    (h : (packWithinWidth sorted ((c : ℚ) * sheetWidthMm)).isSome) :
    (considerColumn sorted totalArea sheetWidthMm sheetHeightMm best c).isSome := by
  simp only [considerColumn]
  cases hpack : packWithinWidth sorted ((c : ℚ) * sheetWidthMm) with
  | none => rw [hpack] at h; simp at h
  | some packing =>
    cases best with
    | none => rfl
    | some b =>
      simp only
      split <;> rfl

theorem foldl_considerColumn_good {sorted : List PrintObject}
    {totalArea sheetWidthMm sheetHeightMm : ℚ} {lo hi : ℕ} :
    ∀ (cands : List ℕ) (best : Option PackingResult),
      (∀ c ∈ cands, lo ≤ c ∧ c ≤ hi) →
      (∀ b, best = some b → GoodR sorted totalArea sheetWidthMm sheetHeightMm lo hi b) →
      ∀ b', cands.foldl (considerColumn sorted totalArea sheetWidthMm sheetHeightMm) best =
          some b' →
        GoodR sorted totalArea sheetWidthMm sheetHeightMm lo hi b' := by
  intro cands
  induction cands with
  | nil =>
    intro best _ hbest b' h
    exact hbest b' h
  | cons c rest ih =>
    intro best hc hbest b' h
    rw [List.foldl_cons] at h
    refine ih _ (fun c' hc' => hc c' (List.mem_cons_of_mem c hc')) ?_ b' h
    exact considerColumn_good hbest (hc c (List.mem_cons_self c rest)).1
      (hc c (List.mem_cons_self c rest)).2

theorem foldl_considerColumn_isSome {sorted : List PrintObject}
    {totalArea sheetWidthMm sheetHeightMm : ℚ} :
    ∀ (cands : List ℕ) (best : Option PackingResult),
      (best.isSome ∨ ∃ c ∈ cands, (packWithinWidth sorted ((c : ℚ) * sheetWidthMm)).isSome) →
      (cands.foldl (considerColumn sorted totalArea sheetWidthMm sheetHeightMm) best).isSome := by
  intro cands
  induction cands with
  | nil =>
    intro best h
    rcases h with h | ⟨c, hc, -⟩
    · exact h
    · simp at hc
  | cons c rest ih =>
    intro best h
    rw [List.foldl_cons]
    rcases h with h | ⟨c', hc', hpack⟩
    · exact ih _ (Or.inl (considerColumn_isSome_of_best h))
    · rcases List.mem_cons.mp hc' with rfl | hc''
      · exact ih _ (Or.inl (considerColumn_isSome_of_pack hpack))
      · exact ih _ (Or.inr ⟨c', hc'', hpack⟩)

/-- Unfolding of `optimisePackingLayout` for non-empty input. -/
theorem optimise_eq_foldl (objects : List PrintObject) (sheetWidthMm sheetHeightMm : ℚ)
    (hne : objects ≠ []) :
    optimisePackingLayout objects sheetWidthMm sheetHeightMm =
      (List.range' (minimumColumns (objects.mergeSort packOrder) sheetWidthMm)
          (maximumColumns (objects.mergeSort packOrder) sheetWidthMm + 1 -
            minimumColumns (objects.mergeSort packOrder) sheetWidthMm)).foldl
        (considerColumn (objects.mergeSort packOrder)
          (totalRectArea (objects.mergeSort packOrder)) sheetWidthMm sheetHeightMm) none := by
  rw [optimisePackingLayout, if_neg (by simpa using hne)]

theorem optimise_empty (sheetWidthMm sheetHeightMm : ℚ) :
    optimisePackingLayout [] sheetWidthMm sheetHeightMm = none := by
  simp [optimisePackingLayout]

theorem sorted_perm (objects : List PrintObject) :
    (objects.mergeSort packOrder).Perm objects :=
  List.mergeSort_perm objects packOrder

theorem totalRectArea_sorted (objects : List PrintObject) :
    totalRectArea (objects.mergeSort packOrder) =
      (objects.map fun r => r.widthMm * r.heightMm).sum := by
  rw [totalRectArea_eq]
  exact ((sorted_perm objects).map _).sum_eq

/-- The packer succeeds on the sorted list at any column count at least
`minimumColumns`. -/
theorem pack_succeeds_at_minimumColumns {objects : List PrintObject} {sheetWidthMm : ℚ}
    (hW : 0 < sheetWidthMm) :
    (packWithinWidth (objects.mergeSort packOrder)
      ((minimumColumns (objects.mergeSort packOrder) sheetWidthMm : ℚ) * sheetWidthMm)).isSome := by
  set sorted := objects.mergeSort packOrder with hsorted
  cases hpack : packWithinWidth sorted
      ((minimumColumns sorted sheetWidthMm : ℚ) * sheetWidthMm) with
  | none =>
    rcases (packWithinWidth_none_iff sorted _).mp hpack with ⟨r, hr, hwide⟩
    have hfits := minimumColumns_fits hW hr
    have heps : (0 : ℚ) < EPSILON := by norm_num [EPSILON]
    linarith
  | some p => rfl

/-- Non-empty input with a positive sheet width always yields a result. -/
theorem optimise_isSome (objects : List PrintObject) (sheetWidthMm sheetHeightMm : ℚ)
    (hne : objects ≠ []) (hW : 0 < sheetWidthMm) :
    (optimisePackingLayout objects sheetWidthMm sheetHeightMm).isSome := by
  rw [optimise_eq_foldl objects sheetWidthMm sheetHeightMm hne]
  apply foldl_considerColumn_isSome
  right
  refine ⟨minimumColumns (objects.mergeSort packOrder) sheetWidthMm, ?_, ?_⟩
  · rw [List.mem_range'_1]
    have := le_max_left (minimumColumns (objects.mergeSort packOrder) sheetWidthMm)
      MAX_SHEET_GRID
    unfold maximumColumns
    omega
  · exact pack_succeeds_at_minimumColumns hW

/-- Every result returned by the optimiser is a recorded candidate. -/
theorem optimise_good {objects : List PrintObject} {sheetWidthMm sheetHeightMm : ℚ}
    {res : PackingResult} (hne : objects ≠ [])
    (h : optimisePackingLayout objects sheetWidthMm sheetHeightMm = some res) :
    GoodR (objects.mergeSort packOrder) (totalRectArea (objects.mergeSort packOrder))
      sheetWidthMm sheetHeightMm
      (minimumColumns (objects.mergeSort packOrder) sheetWidthMm)
      (maximumColumns (objects.mergeSort packOrder) sheetWidthMm) res := by
  rw [optimise_eq_foldl objects sheetWidthMm sheetHeightMm hne] at h
  refine foldl_considerColumn_good _ _ ?_ (by simp) res h
  intro c hc
  rw [List.mem_range'_1] at hc
  have := le_max_left (minimumColumns (objects.mergeSort packOrder) sheetWidthMm)
    MAX_SHEET_GRID
  unfold maximumColumns at *
  omega

/-- The `rows` formula bounds the packed height by the grid height. -/
theorem rows_formula_bound {total sheetHeightMm : ℚ} (hH : 0 < sheetHeightMm) :
    total ≤ ((max 1 ⌈total / sheetHeightMm⌉.toNat : ℕ) : ℚ) * sheetHeightMm := by
  have h1 : (⌈total / sheetHeightMm⌉ : ℤ) ≤ ((max 1 ⌈total / sheetHeightMm⌉.toNat : ℕ) : ℤ) := by
    have := Int.self_le_toNat ⌈total / sheetHeightMm⌉
    omega
  have h2 : total / sheetHeightMm ≤ ((max 1 ⌈total / sheetHeightMm⌉.toNat : ℕ) : ℚ) := by
    refine le_trans (Int.le_ceil _) ?_
    exact_mod_cast h1
  rw [div_le_iff₀ hH] at h2
  linarith

/-- Area bound for a successful packing: the rectangles' total area is at
most the (tolerance-widened) width bound times the output height, which is
itself nonnegative. -/
theorem packWithinWidth_area_bound {rectangles : List PrintObject} {maxWidthMm : ℚ}
    {p : PackOutcome}
    (hdims : ∀ r ∈ rectangles, 0 ≤ r.widthMm ∧ 0 ≤ r.heightMm)
    (hW : 0 ≤ maxWidthMm)
    (h : packWithinWidth rectangles maxWidthMm = some p) :
    (rectangles.map fun r => r.widthMm * r.heightMm).sum ≤
      (maxWidthMm + EPSILON) * p.totalHeightMm ∧ 0 ≤ p.totalHeightMm := by
  rw [packWithinWidth_eq_packFoldA] at h
  rcases Option.map_eq_some'.mp h with ⟨ast, hast, hp⟩
  obtain ⟨⟨hsh, -, -, htot⟩, harea, -⟩ := packFoldA_spec hdims hast
  have hnn : 0 ≤ ast.totalHeightMm := htot ▸ heights_sum_nonneg hsh
  have hple : ast.totalHeightMm ≤ p.totalHeightMm := by
    rw [← hp]
    exact le_max_left _ _
  have hpnn : 0 ≤ p.totalHeightMm := le_trans hnn hple
  have heps : (0 : ℚ) ≤ maxWidthMm + EPSILON := by
    have : (0:ℚ) < EPSILON := by norm_num [EPSILON]
    linarith
  refine ⟨?_, hpnn⟩
  calc (rectangles.map fun r => r.widthMm * r.heightMm).sum
      ≤ shelfAreaSum ast.shelves := harea
    _ ≤ (maxWidthMm + EPSILON) * (ast.shelves.map Shelf.heightMm).sum :=
        shelfAreaSum_le hW hsh
    _ = (maxWidthMm + EPSILON) * ast.totalHeightMm := by rw [htot]
    _ ≤ (maxWidthMm + EPSILON) * p.totalHeightMm :=
        mul_le_mul_of_nonneg_left hple heps

/-! ### Claim theorems: optimiser -/

/-- C2: for every non-empty rectangle list in which every rectangle's width
is at most `24 * sheetWidthMm` (all dimensions positive, sheet dimensions
positive), `optimisePackingLayout` returns a non-null `PackingResult` with
`1 ≤ columns ≤ 24` and `rows ≥ 1`; for the empty list it returns null. -/
theorem claim_optimise_bounded_result (objects : List PrintObject)
    (sheetWidthMm sheetHeightMm : ℚ)
    (hW : 0 < sheetWidthMm) (hH : 0 < sheetHeightMm)
    (hpos : ∀ r ∈ objects, 0 < r.widthMm ∧ 0 < r.heightMm)
    (hwid : ∀ r ∈ objects, r.widthMm ≤ 24 * sheetWidthMm) :
    (objects ≠ [] →
      ∃ res, optimisePackingLayout objects sheetWidthMm sheetHeightMm = some res ∧
        1 ≤ res.columns ∧ res.columns ≤ 24 ∧ 1 ≤ res.rows) ∧
    optimisePackingLayout [] sheetWidthMm sheetHeightMm = none := by
  refine ⟨?_, optimise_empty sheetWidthMm sheetHeightMm⟩
  intro hne
  obtain ⟨res, hres⟩ := Option.isSome_iff_exists.mp
    (optimise_isSome objects sheetWidthMm sheetHeightMm hne hW)
  obtain ⟨hlo, hhi, packing, hpack, hrows, hplace, hwaste⟩ := optimise_good hne hres
  refine ⟨res, hres, le_trans (one_le_minimumColumns _ _) hlo, ?_, ?_⟩
  · have h24 : minimumColumns (objects.mergeSort packOrder) sheetWidthMm ≤ 24 :=
      minimumColumns_le_24 hW (fun r hr => hwid r ((sorted_perm objects).mem_iff.mp hr))
    have hmax : maximumColumns (objects.mergeSort packOrder) sheetWidthMm = 24 := by
      unfold maximumColumns MAX_SHEET_GRID
      omega
    omega
  · rw [hrows]
    exact le_max_left 1 _

/-- C2 witness: a single 100×50 rectangle on A4 sheets. -/
theorem claim_optimise_bounded_result_witness :
    ∃ res, optimisePackingLayout [⟨"r1", "r1", 100, 50, 0, 0, "#5c6ac4"⟩] 210 297 = some res ∧
      1 ≤ res.columns ∧ res.columns ≤ 24 ∧ 1 ≤ res.rows := by
  have h := claim_optimise_bounded_result [⟨"r1", "r1", 100, 50, 0, 0, "#5c6ac4"⟩] 210 297
    (by norm_num) (by norm_num)
    (by intro r hr; rcases List.mem_singleton.mp hr with rfl; norm_num)
    (by intro r hr; rcases List.mem_singleton.mp hr with rfl; norm_num)
  exact h.1 (by simp)

/-- C3: every non-null result satisfies
`wasteArea = columns * rows * sheetWidthMm * sheetHeightMm − Σ(areas)`, and
`wasteArea` is never meaningfully negative: it is at least
`−EPSILON * (rows * sheetHeightMm)` (the packer admits an `EPSILON` width
overshoot per shelf, so the exact lower bound scales with the grid height;
with `EPSILON = 0.0001 mm` this is far below any meaningful area). -/
theorem claim_optimise_wasteArea (objects : List PrintObject)
    (sheetWidthMm sheetHeightMm : ℚ)
    (hW : 0 < sheetWidthMm) (hH : 0 < sheetHeightMm)
    (hpos : ∀ r ∈ objects, 0 < r.widthMm ∧ 0 < r.heightMm) :
    ∀ res, optimisePackingLayout objects sheetWidthMm sheetHeightMm = some res →
      res.wasteArea = (res.columns : ℚ) * (res.rows : ℚ) * sheetWidthMm * sheetHeightMm -
        (objects.map fun r => r.widthMm * r.heightMm).sum ∧
      -(EPSILON * ((res.rows : ℚ) * sheetHeightMm)) ≤ res.wasteArea := by
  intro res hres
  have hne : objects ≠ [] := by
    intro hcon
    rw [hcon, optimise_empty] at hres
    exact absurd hres (by simp)
  obtain ⟨hlo, hhi, packing, hpack, hrows, hplace, hwaste⟩ := optimise_good hne hres
  have heq : res.wasteArea =
      (res.columns : ℚ) * (res.rows : ℚ) * sheetWidthMm * sheetHeightMm -
        (objects.map fun r => r.widthMm * r.heightMm).sum := by
    rw [hwaste, totalRectArea_sorted]
  refine ⟨heq, ?_⟩
  have hdims' : ∀ r ∈ objects.mergeSort packOrder, 0 ≤ r.widthMm ∧ 0 ≤ r.heightMm := by
    intro r hr
    obtain ⟨h1, h2⟩ := hpos r ((sorted_perm objects).mem_iff.mp hr)
    exact ⟨le_of_lt h1, le_of_lt h2⟩
  have hWc : (0 : ℚ) ≤ (res.columns : ℚ) * sheetWidthMm := by positivity
  obtain ⟨harea, hhnn⟩ := packWithinWidth_area_bound hdims' hWc hpack
  have hrowsb : packing.totalHeightMm ≤ (res.rows : ℚ) * sheetHeightMm := by
    rw [hrows]
    exact rows_formula_bound hH
  have htot : (objects.mergeSort packOrder).map (fun r => r.widthMm * r.heightMm) =
      ((objects.mergeSort packOrder).map fun r => r.widthMm * r.heightMm) := rfl
  have hsum : (objects.map fun r => r.widthMm * r.heightMm).sum ≤
      ((res.columns : ℚ) * sheetWidthMm + EPSILON) * ((res.rows : ℚ) * sheetHeightMm) := by
    have hmul : ((res.columns : ℚ) * sheetWidthMm + EPSILON) * packing.totalHeightMm ≤
        ((res.columns : ℚ) * sheetWidthMm + EPSILON) * ((res.rows : ℚ) * sheetHeightMm) := by
      apply mul_le_mul_of_nonneg_left hrowsb
      have : (0:ℚ) < EPSILON := by norm_num [EPSILON]
      linarith
    calc (objects.map fun r => r.widthMm * r.heightMm).sum
        = ((objects.mergeSort packOrder).map fun r => r.widthMm * r.heightMm).sum := by
          rw [((sorted_perm objects).map _).sum_eq]
      _ ≤ ((res.columns : ℚ) * sheetWidthMm + EPSILON) * packing.totalHeightMm := harea
      _ ≤ ((res.columns : ℚ) * sheetWidthMm + EPSILON) *
            ((res.rows : ℚ) * sheetHeightMm) := hmul
  rw [heq]
  nlinarith [hsum]

/-- C3 witness: a single 100×100 rectangle on 100×100 sheets. -/
theorem claim_optimise_wasteArea_witness :
    ∃ res, optimisePackingLayout [⟨"sq", "sq", 100, 100, 0, 0, "#5c6ac4"⟩] 100 100 = some res ∧
      (res.wasteArea = (res.columns : ℚ) * (res.rows : ℚ) * 100 * 100 - 100 * 100 ∧
        -(EPSILON * ((res.rows : ℚ) * 100)) ≤ res.wasteArea) := by
  obtain ⟨res, hres⟩ := Option.isSome_iff_exists.mp
    (optimise_isSome [⟨"sq", "sq", 100, 100, 0, 0, "#5c6ac4"⟩] 100 100 (by simp) (by norm_num))
  have h := claim_optimise_wasteArea [⟨"sq", "sq", 100, 100, 0, 0, "#5c6ac4"⟩] 100 100
    (by norm_num) (by norm_num)
    (by intro r hr; rcases List.mem_singleton.mp hr with rfl; norm_num)
    res hres
  refine ⟨res, hres, ?_, h.2⟩
  have := h.1
  simpa using this

/-- C10 (implicit): for every non-empty list of rectangles with positive
dimensions (and positive sheet dimensions), `optimisePackingLayout` returns
a non-null result even when a rectangle is wider than
`24 * sheetWidthMm`, because the column upper bound is
`max(minColumns, 24)`; in that oversized case the returned `columns`
exceeds 24. -/
theorem claim_optimise_never_fails (objects : List PrintObject)
    (sheetWidthMm sheetHeightMm : ℚ)
    (hW : 0 < sheetWidthMm) (hH : 0 < sheetHeightMm)
    (hne : objects ≠ [])
    (hpos : ∀ r ∈ objects, 0 < r.widthMm ∧ 0 < r.heightMm) :
    ∃ res, optimisePackingLayout objects sheetWidthMm sheetHeightMm = some res ∧
      ((∃ r ∈ objects, 24 * sheetWidthMm < r.widthMm) → 24 < res.columns) := by
  obtain ⟨res, hres⟩ := Option.isSome_iff_exists.mp
    (optimise_isSome objects sheetWidthMm sheetHeightMm hne hW)
  refine ⟨res, hres, ?_⟩
  rintro ⟨r, hr, hwide⟩
  obtain ⟨hlo, -, -⟩ := optimise_good hne hres
  have h24 := minimumColumns_gt_24 hW ((sorted_perm objects).mem_iff.mpr hr) hwide
  omega

/-- C10 witness: a 2500 mm wide rectangle on 100×100 sheets (wider than
`24 * 100`). -/
theorem claim_optimise_never_fails_witness :
    ∃ res, optimisePackingLayout [⟨"big", "big", 2500, 100, 0, 0, "#5c6ac4"⟩] 100 100 =
        some res ∧ 24 < res.columns := by
  obtain ⟨res, hres, himp⟩ := claim_optimise_never_fails
    [⟨"big", "big", 2500, 100, 0, 0, "#5c6ac4"⟩] 100 100
    (by norm_num) (by norm_num) (by simp)
    (by intro r hr; rcases List.mem_singleton.mp hr with rfl; norm_num)
  exact ⟨res, hres, himp ⟨_, List.mem_singleton.mpr rfl, by norm_num⟩⟩

/-- C1 counterexample: a rectangle wider than `24 * sheetWidthMm` does
*not* make `optimisePackingLayout` return null — the column search upper
bound is `max(minColumns, 24)`, so the minimum feasible column count is
still tried. -/
theorem claim_oversized_counterexample :
    24 * (100 : ℚ) < (⟨"big", "big", 2500, 100, 0, 0, "#5c6ac4"⟩ : PrintObject).widthMm ∧
    optimisePackingLayout [⟨"big", "big", 2500, 100, 0, 0, "#5c6ac4"⟩] 100 100 ≠ none := by
  refine ⟨by norm_num, ?_⟩
  have h := optimise_isSome [⟨"big", "big", 2500, 100, 0, 0, "#5c6ac4"⟩] 100 100
    (by simp) (by norm_num)
  intro hcon
  rw [hcon] at h
  exact absurd h (by simp)

/-- C1 (amended): for every input list (positive dimensions, positive sheet
dimensions) containing a rectangle wider than `24 * sheetWidthMm`,
`optimisePackingLayout` returns a non-null result whose `columns` exceeds
24, instead of failing with NoFeasibleLayout. -/
theorem claim_oversized_amended (objects : List PrintObject)
    (sheetWidthMm sheetHeightMm : ℚ)
    (hW : 0 < sheetWidthMm) (hH : 0 < sheetHeightMm)
    (hpos : ∀ r ∈ objects, 0 < r.widthMm ∧ 0 < r.heightMm)
    (hwide : ∃ r ∈ objects, 24 * sheetWidthMm < r.widthMm) :
    ∃ res, optimisePackingLayout objects sheetWidthMm sheetHeightMm = some res ∧
      24 < res.columns := by
  have hne : objects ≠ [] := by
    rintro rfl
    rcases hwide with ⟨r, hr, -⟩
    simp at hr
  obtain ⟨res, hres⟩ := Option.isSome_iff_exists.mp
    (optimise_isSome objects sheetWidthMm sheetHeightMm hne hW)
  obtain ⟨hlo, -, -⟩ := optimise_good hne hres
  rcases hwide with ⟨r, hr, hw⟩
  have h24 := minimumColumns_gt_24 hW ((sorted_perm objects).mem_iff.mpr hr) hw
  exact ⟨res, hres, by omega⟩

/-- C1 amended witness: the 2500 mm rectangle again. -/
theorem claim_oversized_amended_witness :
    ∃ res, optimisePackingLayout [⟨"wide", "wide", 2500, 100, 0, 0, "#47a3f3"⟩] 100 100 =
        some res ∧ 24 < res.columns :=
  claim_oversized_amended [⟨"wide", "wide", 2500, 100, 0, 0, "#47a3f3"⟩] 100 100
    (by norm_num) (by norm_num)
    (by intro r hr; rcases List.mem_singleton.mp hr with rfl; norm_num)
    ⟨_, List.mem_singleton.mpr rfl, by norm_num⟩

/-! ### Claim theorems: packer -/

/-- C6: `packWithinWidth` returns null exactly when some rectangle's width
exceeds `maxWidthMm + EPSILON` (0.0001 mm); on success, and with unique
rectangle ids, the placement map has exactly one entry per input rectangle
(its key list is the input id list). -/
theorem claim_packer_nofit (rectangles : List PrintObject) (maxWidthMm : ℚ) :
    (packWithinWidth rectangles maxWidthMm = none ↔
      ∃ r ∈ rectangles, maxWidthMm + EPSILON < r.widthMm) ∧
    ((rectangles.map fun r => r.id).Nodup →
      ∀ p, packWithinWidth rectangles maxWidthMm = some p →
        p.placements.map Prod.fst = rectangles.map fun r => r.id) := by
  refine ⟨packWithinWidth_none_iff rectangles maxWidthMm, ?_⟩
  intro hnodup p hp
  rw [packWithinWidth_eq_packFoldA] at hp
  rcases Option.map_eq_some'.mp hp with ⟨ast, hast, hpeq⟩
  have hkeys := packFoldA_keys rectangles ⟨[], [], 0, 0⟩ ast (by simp) hnodup hast
  rw [← hpeq]
  show (erasePlacements ast.placements).map Prod.fst = _
  rw [keys_erasePlacements]
  simpa using hkeys

/-- C6 witness: a single 100×50 rectangle within width 100. -/
theorem claim_packer_nofit_witness :
    ∃ p, packWithinWidth [⟨"r1", "r1", 100, 50, 0, 0, "#5c6ac4"⟩] 100 = some p ∧
      p.placements.map Prod.fst = ["r1"] := by
  have h := claim_packer_nofit [⟨"r1", "r1", 100, 50, 0, 0, "#5c6ac4"⟩] 100
  have hnone : packWithinWidth [⟨"r1", "r1", 100, 50, 0, 0, "#5c6ac4"⟩] 100 ≠ none := by
    rw [ne_eq, h.1]
    rintro ⟨r, hr, hwide⟩
    rcases List.mem_singleton.mp hr with rfl
    norm_num [EPSILON] at hwide
  obtain ⟨p, hp⟩ := Option.ne_none_iff_exists'.mp hnone
  exact ⟨p, hp, by simpa using h.2 (by simp) p hp⟩

/-- C7: in any successful packing, the ghost-annotated run (which
`packWithinWidth` is the erasure of) places any two rectangles that share a
shelf on disjoint half-open x-ranges `[x, x + width)`, and every placed
rectangle satisfies `x + width ≤ maxWidthMm + EPSILON`; each entry's
recorded width is the width of an input rectangle with its id. -/
theorem claim_packer_disjoint (rectangles : List PrintObject) (maxWidthMm : ℚ)
    (hpos : ∀ r ∈ rectangles, 0 < r.widthMm ∧ 0 < r.heightMm) :
    ∀ p, packWithinWidth rectangles maxWidthMm = some p →
      ∃ ast, packFoldA rectangles maxWidthMm = some ast ∧
        p.placements = erasePlacements ast.placements ∧
        ast.placements.Pairwise (fun a b => a.2.shelfIdx = b.2.shelfIdx →
          a.2.xMm + a.2.rectWidth ≤ b.2.xMm ∨ b.2.xMm + b.2.rectWidth ≤ a.2.xMm) ∧
        (∀ e ∈ ast.placements, e.2.xMm + e.2.rectWidth ≤ maxWidthMm + EPSILON) ∧
        (∀ e ∈ ast.placements, ∃ r ∈ rectangles, e.1 = r.id ∧
          e.2.rectWidth = r.widthMm) := by
  intro p hp
  rw [packWithinWidth_eq_packFoldA] at hp
  rcases Option.map_eq_some'.mp hp with ⟨ast, hast, hpeq⟩
  have hdims : ∀ r ∈ rectangles, 0 ≤ r.widthMm ∧ 0 ≤ r.heightMm := by
    intro r hr
    obtain ⟨h1, h2⟩ := hpos r hr
    exact ⟨le_of_lt h1, le_of_lt h2⟩
  obtain ⟨⟨hsh, hent, hpair, -⟩, -, hprov⟩ := packFoldA_spec hdims hast
  refine ⟨ast, hast, ?_, hpair, ?_, hprov⟩
  · rw [← hpeq]
  · intro e he
    obtain ⟨hidx, hx, hw, hbound⟩ := hent e he
    have hmem : ast.shelves.getD e.2.shelfIdx default ∈ ast.shelves := by
      rw [List.getD_eq_getElem _ _ hidx]
      exact List.getElem_mem hidx
    exact le_trans hbound (hsh _ hmem).2.2

/-- C7 witness: two 100×50 rectangles within width 210. -/
theorem claim_packer_disjoint_witness :
    ∃ p, packWithinWidth
        [⟨"a", "a", 100, 50, 0, 0, "#5c6ac4"⟩, ⟨"b", "b", 100, 50, 0, 0, "#47a3f3"⟩] 210 =
        some p ∧
      ∃ ast, packFoldA
          [⟨"a", "a", 100, 50, 0, 0, "#5c6ac4"⟩, ⟨"b", "b", 100, 50, 0, 0, "#47a3f3"⟩] 210 =
          some ast ∧
        p.placements = erasePlacements ast.placements ∧
        ast.placements.Pairwise (fun a b => a.2.shelfIdx = b.2.shelfIdx →
          a.2.xMm + a.2.rectWidth ≤ b.2.xMm ∨ b.2.xMm + b.2.rectWidth ≤ a.2.xMm) ∧
        (∀ e ∈ ast.placements, e.2.xMm + e.2.rectWidth ≤ 210 + EPSILON) ∧
        (∀ e ∈ ast.placements, ∃ r ∈
            [(⟨"a", "a", 100, 50, 0, 0, "#5c6ac4"⟩ : PrintObject),
              ⟨"b", "b", 100, 50, 0, 0, "#47a3f3"⟩], e.1 = r.id ∧
          e.2.rectWidth = r.widthMm) := by
  have hnone : packWithinWidth
      [⟨"a", "a", 100, 50, 0, 0, "#5c6ac4"⟩, ⟨"b", "b", 100, 50, 0, 0, "#47a3f3"⟩] 210 ≠
      none := by
    rw [ne_eq, packWithinWidth_none_iff]
    rintro ⟨r, hr, hwide⟩
    rcases List.mem_cons.mp hr with rfl | hr'
    · norm_num [EPSILON] at hwide
    · rcases List.mem_singleton.mp hr' with rfl
      norm_num [EPSILON] at hwide
  obtain ⟨p, hp⟩ := Option.ne_none_iff_exists'.mp hnone
  refine ⟨p, hp, ?_⟩
  exact claim_packer_disjoint _ 210
    (by
      intro r hr
      rcases List.mem_cons.mp hr with rfl | hr'
      · norm_num
      · rcases List.mem_singleton.mp hr' with rfl
        norm_num)
    p hp

/-- C8: evaluation at the failing input
`pack [A 5×5, B 10×5, C 5×20] with maxWidth 10`.  A opens shelf 0, B opens
shelf 1 (recorded at y = 5), C joins shelf 0 and grows it from height 5 to
20; the cascade shifts the shelf-1 *record* to y = 20 (see `ast.shelves`),
but B's already-recorded placement keeps y = 5, so in the final placement
map B (shelf 1, y-range [5, 10)) vertically overlaps shelf 0's band and
rectangle C (shelf 0, y-range [0, 20)) — the last conjunct states that the
two y-ranges are not disjoint. -/
theorem claim_shelf_growth_bug :
    ∃ ast, packFoldA
        [⟨"A", "A", 5, 5, 0, 0, "#5c6ac4"⟩, ⟨"B", "B", 10, 5, 0, 0, "#47a3f3"⟩,
          ⟨"C", "C", 5, 20, 0, 0, "#ec8c69"⟩] 10 = some ast ∧
      ast.shelves = [⟨0, 20, 10⟩, ⟨20, 5, 10⟩] ∧
      mapGet ast.placements "B" = some ⟨0, 5, 1, 10⟩ ∧
      mapGet ast.placements "C" = some ⟨5, 0, 0, 5⟩ ∧
      packWithinWidth
        [⟨"A", "A", 5, 5, 0, 0, "#5c6ac4"⟩, ⟨"B", "B", 10, 5, 0, 0, "#47a3f3"⟩,
          ⟨"C", "C", 5, 20, 0, 0, "#ec8c69"⟩] 10 =
        some ⟨[("A", ⟨0, 0⟩), ("B", ⟨0, 5⟩), ("C", ⟨5, 0⟩)], 25, 10⟩ ∧
      ¬ ((5 : ℚ) + 5 ≤ 0 ∨ (0 : ℚ) + 20 ≤ 5) := by
  refine ⟨⟨[⟨0, 20, 10⟩, ⟨20, 5, 10⟩],
      [("A", ⟨0, 0, 0, 5⟩), ("B", ⟨0, 5, 1, 10⟩), ("C", ⟨5, 0, 0, 5⟩)], 25, 10⟩,
    ?_, rfl, ?_, ?_, ?_, by norm_num⟩
  · norm_num +decide [packFoldA, List.foldlM, packStepA, selectShelf, selectShelfAux,
      mapSet, shiftAfter, EPSILON, List.enum, List.enumFrom]
  · simp +decide [mapGet]
  · simp +decide [mapGet]
  · norm_num +decide [packWithinWidth, List.foldlM, packStep, selectShelf, selectShelfAux,
      mapSet, shiftAfter, EPSILON, List.enum, List.enumFrom]

/-! ### Claim theorems: texture crop -/

/-- C9 (amended): the crop origin is never negative and the crop is always
at least one pixel in each dimension; the crop stays within the source
raster whenever at least one source pixel remains past the origin
(`sourcePixelWidth − sx ≥ 1`), and in general can overshoot the source
bound by less than one pixel: `sx + sWidth ≤ max sourcePixelWidth (sx + 1)`
(the `max(1, ·)` floor of the formula wins over the `min` bound). -/
theorem claim_crop_bounds_amended (object : PrintObject) (texture : Texture)
    (interLeft interTop interWidth interHeight : ℚ) :
    0 ≤ (cropRect object texture interLeft interTop interWidth interHeight).sx ∧
    0 ≤ (cropRect object texture interLeft interTop interWidth interHeight).sy ∧
    1 ≤ (cropRect object texture interLeft interTop interWidth interHeight).sWidth ∧
    1 ≤ (cropRect object texture interLeft interTop interWidth interHeight).sHeight ∧
    (cropRect object texture interLeft interTop interWidth interHeight).sx +
        (cropRect object texture interLeft interTop interWidth interHeight).sWidth ≤
      max texture.widthPx
        ((cropRect object texture interLeft interTop interWidth interHeight).sx + 1) ∧
    (cropRect object texture interLeft interTop interWidth interHeight).sy +
        (cropRect object texture interLeft interTop interWidth interHeight).sHeight ≤
      max texture.heightPx
        ((cropRect object texture interLeft interTop interWidth interHeight).sy + 1) ∧
    (1 ≤ texture.widthPx -
        (cropRect object texture interLeft interTop interWidth interHeight).sx →
      (cropRect object texture interLeft interTop interWidth interHeight).sx +
        (cropRect object texture interLeft interTop interWidth interHeight).sWidth ≤
        texture.widthPx) ∧
    (1 ≤ texture.heightPx -
        (cropRect object texture interLeft interTop interWidth interHeight).sy →
      (cropRect object texture interLeft interTop interWidth interHeight).sy +
        (cropRect object texture interLeft interTop interWidth interHeight).sHeight ≤
        texture.heightPx) := by
  unfold cropRect
  simp only
  set sx := max 0 ((interLeft - object.xMm) * (texture.widthPx / object.widthMm)) with hsx
  set sy := max 0 ((interTop - object.yMm) * (texture.heightPx / object.heightMm)) with hsy
  refine ⟨le_max_left 0 _, le_max_left 0 _, le_max_left 1 _, le_max_left 1 _,
    ?_, ?_, ?_, ?_⟩
  · have h1 : max 1 (min (texture.widthPx - sx)
        (interWidth * (texture.widthPx / object.widthMm))) ≤
        max 1 (texture.widthPx - sx) :=
      max_le_max (le_refl 1) (min_le_left _ _)
    have h2 : sx + max 1 (texture.widthPx - sx) = max (sx + 1) texture.widthPx := by
      rw [← max_add_add_left]
      ring_nf
    calc sx + max 1 (min (texture.widthPx - sx)
          (interWidth * (texture.widthPx / object.widthMm)))
        ≤ sx + max 1 (texture.widthPx - sx) := by linarith [h1]
      _ = max (sx + 1) texture.widthPx := h2
      _ = max texture.widthPx (sx + 1) := max_comm _ _
  · have h1 : max 1 (min (texture.heightPx - sy)
        (interHeight * (texture.heightPx / object.heightMm))) ≤
        max 1 (texture.heightPx - sy) :=
      max_le_max (le_refl 1) (min_le_left _ _)
    have h2 : sy + max 1 (texture.heightPx - sy) = max (sy + 1) texture.heightPx := by
      rw [← max_add_add_left]
      ring_nf
    calc sy + max 1 (min (texture.heightPx - sy)
          (interHeight * (texture.heightPx / object.heightMm)))
        ≤ sy + max 1 (texture.heightPx - sy) := by linarith [h1]
      _ = max (sy + 1) texture.heightPx := h2
      _ = max texture.heightPx (sy + 1) := max_comm _ _
  · intro hroom
    have h1 : max 1 (min (texture.widthPx - sx)
        (interWidth * (texture.widthPx / object.widthMm))) ≤ texture.widthPx - sx :=
      max_le hroom (min_le_left _ _)
    linarith
  · intro hroom
    have h1 : max 1 (min (texture.heightPx - sy)
        (interHeight * (texture.heightPx / object.heightMm))) ≤ texture.heightPx - sy :=
      max_le hroom (min_le_left _ _)
    linarith

/-- C9 witness: a 100×100 px texture on a 100×100 mm object cropped to the
cell intersection `[0, 50) × [0, 50)` stays within the source bounds. -/
theorem claim_crop_bounds_amended_witness :
    0 ≤ (cropRect ⟨"t", "t", 100, 100, 0, 0, "#5c6ac4"⟩ ⟨100, 100⟩ 0 0 50 50).sx ∧
    (cropRect ⟨"t", "t", 100, 100, 0, 0, "#5c6ac4"⟩ ⟨100, 100⟩ 0 0 50 50).sx +
        (cropRect ⟨"t", "t", 100, 100, 0, 0, "#5c6ac4"⟩ ⟨100, 100⟩ 0 0 50 50).sWidth ≤
      100 := by
  have h := claim_crop_bounds_amended ⟨"t", "t", 100, 100, 0, 0, "#5c6ac4"⟩ ⟨100, 100⟩ 0 0 50 50
  refine ⟨h.1, ?_⟩
  have := h.2.2.2.2.2.2.1
  apply this
  norm_num [cropRect]

/-- C9 counterexample: a 2 px wide texture on a 1000 mm wide object, with a
thin (but super-`EPSILON`) intersection sliver at the right edge reached as
the cell (row 0, column 1) intersection for sheet width 999.999 mm: the
crop formula returns `sx + sWidth > sourcePixelWidth`, exceeding the
source raster bounds, because the 1-pixel minimum overrides the bound. -/
theorem claim_crop_bounds_counterexample :
    EPSILON <
      (cellObjectInter ⟨"t", "t", 1000, 100, 0, 0, "#5c6ac4"⟩ ⟨999999/1000, 100⟩ 1 0).width ∧
    EPSILON <
      (cellObjectInter ⟨"t", "t", 1000, 100, 0, 0, "#5c6ac4"⟩ ⟨999999/1000, 100⟩ 1 0).height ∧
    (2 : ℚ) <
      (cropRect ⟨"t", "t", 1000, 100, 0, 0, "#5c6ac4"⟩ ⟨2, 100⟩
          (cellObjectInter ⟨"t", "t", 1000, 100, 0, 0, "#5c6ac4"⟩ ⟨999999/1000, 100⟩ 1 0).left
          (cellObjectInter ⟨"t", "t", 1000, 100, 0, 0, "#5c6ac4"⟩ ⟨999999/1000, 100⟩ 1 0).top
          (cellObjectInter ⟨"t", "t", 1000, 100, 0, 0, "#5c6ac4"⟩ ⟨999999/1000, 100⟩ 1 0).width
          (cellObjectInter ⟨"t", "t", 1000, 100, 0, 0, "#5c6ac4"⟩
            ⟨999999/1000, 100⟩ 1 0).height).sx +
      (cropRect ⟨"t", "t", 1000, 100, 0, 0, "#5c6ac4"⟩ ⟨2, 100⟩
          (cellObjectInter ⟨"t", "t", 1000, 100, 0, 0, "#5c6ac4"⟩ ⟨999999/1000, 100⟩ 1 0).left
          (cellObjectInter ⟨"t", "t", 1000, 100, 0, 0, "#5c6ac4"⟩ ⟨999999/1000, 100⟩ 1 0).top
          (cellObjectInter ⟨"t", "t", 1000, 100, 0, 0, "#5c6ac4"⟩ ⟨999999/1000, 100⟩ 1 0).width
          (cellObjectInter ⟨"t", "t", 1000, 100, 0, 0, "#5c6ac4"⟩
            ⟨999999/1000, 100⟩ 1 0).height).sWidth := by
  norm_num [cellObjectInter, cropRect, EPSILON, max_def, min_def]

/-! ### Claim theorems: page emission -/

theorem exportPages_eq_map (objects : List PrintObject) (textures : List (String × Texture))
    (sheet : SheetDimensions) (columns rows : ℕ) :
    exportPages objects textures sheet columns rows =
      (nonEmptyCells objects textures sheet columns rows).map
        (fun cell => cellCommands objects textures sheet cell.2 cell.1) := by
  unfold exportPages nonEmptyCells
  rw [List.map_flatMap]
  apply List.flatMap_congr
  intro ri _
  rw [List.map_filterMap]
  apply List.filterMap_congr
  intro ci _
  by_cases h : cellCommands objects textures sheet ci ri = []
  · simp [h]
  · simp [h]

theorem mem_nonEmptyCells (objects : List PrintObject) (textures : List (String × Texture))
    (sheet : SheetDimensions) (columns rows : ℕ) (cell : ℕ × ℕ) :
    cell ∈ nonEmptyCells objects textures sheet columns rows ↔
      cell.1 < rows ∧ cell.2 < columns ∧
        cellCommands objects textures sheet cell.2 cell.1 ≠ [] := by
  unfold nonEmptyCells
  rw [List.mem_flatMap]
  constructor
  · rintro ⟨ri, hri, hcell⟩
    rw [List.mem_filterMap] at hcell
    rcases hcell with ⟨ci, hci, hsome⟩
    by_cases h : cellCommands objects textures sheet ci ri = []
    · rw [if_pos h] at hsome
      simp at hsome
    · rw [if_neg h] at hsome
      rcases Option.some.inj hsome with rfl
      exact ⟨List.mem_range.mp hri, List.mem_range.mp hci, h⟩
  · rintro ⟨hri, hci, hne⟩
    refine ⟨cell.1, List.mem_range.mpr hri, ?_⟩
    rw [List.mem_filterMap]
    exact ⟨cell.2, List.mem_range.mpr hci, by rw [if_neg hne]⟩

/-- C5: in the export loop a page is emitted for a sheet cell if and only
if that cell has at least one draw command: pages are exactly the
command lists of the non-empty cells in row-major order, so no page is
blank, the page count equals the number of non-empty cells (not
`columns * rows`), and if every object misses every cell (its intersection
is degenerate everywhere) the export produces zero pages. -/
theorem claim_page_emission (objects : List PrintObject) (textures : List (String × Texture))
    (sheet : SheetDimensions) (columns rows : ℕ) :
    (∀ page ∈ exportPages objects textures sheet columns rows, page ≠ []) ∧
    exportPages objects textures sheet columns rows =
      (nonEmptyCells objects textures sheet columns rows).map
        (fun cell => cellCommands objects textures sheet cell.2 cell.1) ∧
    (exportPages objects textures sheet columns rows).length =
      (nonEmptyCells objects textures sheet columns rows).length ∧
    (∀ cell : ℕ × ℕ, cell ∈ nonEmptyCells objects textures sheet columns rows ↔
      cell.1 < rows ∧ cell.2 < columns ∧
        cellCommands objects textures sheet cell.2 cell.1 ≠ []) ∧
    ((∀ object ∈ objects, ∀ rowIndex < rows, ∀ columnIndex < columns,
        (cellObjectInter object sheet columnIndex rowIndex).width ≤ EPSILON ∨
        (cellObjectInter object sheet columnIndex rowIndex).height ≤ EPSILON) →
      exportPages objects textures sheet columns rows = []) := by
  refine ⟨?_, exportPages_eq_map objects textures sheet columns rows,
    by rw [exportPages_eq_map, List.length_map],
    mem_nonEmptyCells objects textures sheet columns rows, ?_⟩
  · intro page hpage
    rw [exportPages_eq_map] at hpage
    rcases List.mem_map.mp hpage with ⟨cell, hcell, rfl⟩
    exact ((mem_nonEmptyCells objects textures sheet columns rows cell).mp hcell).2.2
  · intro hout
    rw [exportPages_eq_map]
    have hempty : nonEmptyCells objects textures sheet columns rows = [] := by
      apply List.eq_nil_iff_forall_not_mem.mpr
      intro cell hcell
      obtain ⟨hr, hc, hne⟩ := (mem_nonEmptyCells objects textures sheet columns rows cell).mp
        hcell
      apply hne
      unfold cellCommands
      apply List.eq_nil_iff_forall_not_mem.mpr
      intro cmd hcmd
      rcases List.mem_filterMap.mp hcmd with ⟨object, hobj, hsome⟩
      have hdeg := hout object hobj cell.1 hr cell.2 hc
      rw [objectCellCommand, if_pos hdeg] at hsome
      simp at hsome
    rw [hempty]
    rfl

/-- C5 witness: one object placed far outside a single 100×100 sheet cell
produces zero pages. -/
theorem claim_page_emission_witness :
    exportPages [⟨"o", "o", 10, 10, -500, -500, "#5c6ac4"⟩] [] ⟨100, 100⟩ 1 1 = [] := by
  apply (claim_page_emission [⟨"o", "o", 10, 10, -500, -500, "#5c6ac4"⟩] [] ⟨100, 100⟩ 1 1).2.2.2.2
  intro object hobj rowIndex hr columnIndex hc
  rcases List.mem_singleton.mp hobj with rfl
  interval_cases rowIndex
  interval_cases columnIndex
  left
  norm_num [cellObjectInter, EPSILON, max_def, min_def]

/-! ### Claim theorems: tiling partition -/

/-- A point determines its cell index along one axis. -/
theorem cell_index_unique {W : ℚ} (hW : 0 < W) {c1 c2 : ℕ} {t : ℚ}
    (h1 : (c1 : ℚ) * W ≤ t) (h2 : t < ((c1 : ℚ) + 1) * W)
    (h3 : (c2 : ℚ) * W ≤ t) (h4 : t < ((c2 : ℚ) + 1) * W) : c1 = c2 := by
  have l1 : (c1 : ℚ) * W < ((c2 : ℚ) + 1) * W := lt_of_le_of_lt h1 h4
  have l2 : (c2 : ℚ) * W < ((c1 : ℚ) + 1) * W := lt_of_le_of_lt h3 h2
  have m1 : (c1 : ℚ) < (c2 : ℚ) + 1 := lt_of_mul_lt_mul_right l1 hW.le
  have m2 : (c2 : ℚ) < (c1 : ℚ) + 1 := lt_of_mul_lt_mul_right l2 hW.le
  have n1 : c1 < c2 + 1 := by exact_mod_cast m1
  have n2 : c2 < c1 + 1 := by exact_mod_cast m2
  omega

/-- A point within `[0, n * W)` lies in exactly the cell `⌊t / W⌋`. -/
theorem floor_cell {W t : ℚ} (hW : 0 < W) (ht : 0 ≤ t) {n : ℕ} (hlt : t < (n : ℚ) * W) :
    ∃ c : ℕ, c < n ∧ (c : ℚ) * W ≤ t ∧ t < ((c : ℚ) + 1) * W := by
  have h0 : (0 : ℤ) ≤ ⌊t / W⌋ := Int.floor_nonneg.mpr (div_nonneg ht hW.le)
  have heq : (⌊t / W⌋.toNat : ℤ) = ⌊t / W⌋ := Int.toNat_of_nonneg h0
  have hc : ((⌊t / W⌋.toNat : ℕ) : ℚ) = ((⌊t / W⌋ : ℤ) : ℚ) := by exact_mod_cast heq
  refine ⟨⌊t / W⌋.toNat, ?_, ?_, ?_⟩
  · have hdiv : t / W < (n : ℚ) := (div_lt_iff₀ hW).mpr hlt
    have hfl : ⌊t / W⌋ < (n : ℤ) := Int.floor_lt.mpr (by exact_mod_cast hdiv)
    omega
  · rw [hc]
    exact (le_div_iff₀ hW).mp (Int.floor_le (t / W))
  · rw [hc]
    have := Int.lt_floor_add_one (t / W)
    have h2 : t / W < ((⌊t / W⌋ : ℤ) : ℚ) + 1 := by exact_mod_cast this
    calc t = t / W * W := by field_simp
      _ < (((⌊t / W⌋ : ℤ) : ℚ) + 1) * W := by
          exact mul_lt_mul_of_pos_right h2 hW

/-- Membership in one cell's raw intersection rectangle, characterised by
object membership plus cell-strip membership on both axes. -/
theorem inCellInter_iff (object : PrintObject) (sheet : SheetDimensions)
    (ci ri : ℕ) (p : ℚ × ℚ) :
    inCellInter object sheet ci ri p ↔
      (object.xMm ≤ p.1 ∧ p.1 < object.xMm + object.widthMm ∧
        object.yMm ≤ p.2 ∧ p.2 < object.yMm + object.heightMm ∧
        (ci : ℚ) * sheet.widthMm ≤ p.1 ∧ p.1 < ((ci : ℚ) + 1) * sheet.widthMm ∧
        (ri : ℚ) * sheet.heightMm ≤ p.2 ∧ p.2 < ((ri : ℚ) + 1) * sheet.heightMm) := by
  unfold inCellInter cellObjectInter
  simp only
  constructor
  · rintro ⟨h1, h2, h3, h4⟩
    rw [max_le_iff] at h1 h3
    have h2' : p.1 < min (object.xMm + object.widthMm)
        ((ci : ℚ) * sheet.widthMm + sheet.widthMm) := by
      have harith : max object.xMm ((ci : ℚ) * sheet.widthMm) +
          (min (object.xMm + object.widthMm) ((ci : ℚ) * sheet.widthMm + sheet.widthMm) -
            max object.xMm ((ci : ℚ) * sheet.widthMm)) =
          min (object.xMm + object.widthMm) ((ci : ℚ) * sheet.widthMm + sheet.widthMm) := by
        ring
      rw [harith] at h2
      exact h2
    have h4' : p.2 < min (object.yMm + object.heightMm)
        ((ri : ℚ) * sheet.heightMm + sheet.heightMm) := by
      have harith : max object.yMm ((ri : ℚ) * sheet.heightMm) +
          (min (object.yMm + object.heightMm) ((ri : ℚ) * sheet.heightMm + sheet.heightMm) -
            max object.yMm ((ri : ℚ) * sheet.heightMm)) =
          min (object.yMm + object.heightMm) ((ri : ℚ) * sheet.heightMm + sheet.heightMm) := by
        ring
      rw [harith] at h4
      exact h4
    rw [lt_min_iff] at h2' h4'
    refine ⟨h1.1, h2'.1, h3.1, h4'.1, h1.2, ?_, h3.2, ?_⟩
    · have : ((ci : ℚ) + 1) * sheet.widthMm = (ci : ℚ) * sheet.widthMm + sheet.widthMm := by
        ring
      rw [this]
      exact h2'.2
    · have : ((ri : ℚ) + 1) * sheet.heightMm = (ri : ℚ) * sheet.heightMm + sheet.heightMm := by
        ring
      rw [this]
      exact h4'.2
  · rintro ⟨h1, h2, h3, h4, h5, h6, h7, h8⟩
    have h6' : p.1 < (ci : ℚ) * sheet.widthMm + sheet.widthMm := by
      have : ((ci : ℚ) + 1) * sheet.widthMm = (ci : ℚ) * sheet.widthMm + sheet.widthMm := by
        ring
      rw [← this]
      exact h6
    have h8' : p.2 < (ri : ℚ) * sheet.heightMm + sheet.heightMm := by
      have : ((ri : ℚ) + 1) * sheet.heightMm = (ri : ℚ) * sheet.heightMm + sheet.heightMm := by
        ring
      rw [← this]
      exact h8
    refine ⟨max_le h1 h5, ?_, max_le h3 h7, ?_⟩
    · have harith : max object.xMm ((ci : ℚ) * sheet.widthMm) +
          (min (object.xMm + object.widthMm) ((ci : ℚ) * sheet.widthMm + sheet.widthMm) -
            max object.xMm ((ci : ℚ) * sheet.widthMm)) =
          min (object.xMm + object.widthMm) ((ci : ℚ) * sheet.widthMm + sheet.widthMm) := by
        ring
      rw [harith]
      exact lt_min h2 h6'
    · have harith : max object.yMm ((ri : ℚ) * sheet.heightMm) +
          (min (object.yMm + object.heightMm) ((ri : ℚ) * sheet.heightMm + sheet.heightMm) -
            max object.yMm ((ri : ℚ) * sheet.heightMm)) =
          min (object.yMm + object.heightMm) ((ri : ℚ) * sheet.heightMm + sheet.heightMm) := by
        ring
      rw [harith]
      exact lt_min h4 h8'

/-- `inCellTiling` unfolded to an existential over cells. -/
theorem inCellTiling_iff (object : PrintObject) (sheet : SheetDimensions)
    (columns rows : ℕ) (p : ℚ × ℚ) :
    inCellTiling object sheet columns rows p = true ↔
      ∃ ri < rows, ∃ ci < columns,
        ¬ ((cellObjectInter object sheet ci ri).width ≤ EPSILON ∨
          (cellObjectInter object sheet ci ri).height ≤ EPSILON) ∧
        inCellInter object sheet ci ri p := by
  unfold inCellTiling
  rw [List.any_eq_true]
  constructor
  · rintro ⟨ri, hri, h⟩
    rw [List.any_eq_true] at h
    rcases h with ⟨ci, hci, h⟩
    rw [decide_eq_true_iff] at h
    exact ⟨ri, List.mem_range.mp hri, ci, List.mem_range.mp hci, h.1,
      h.2.1, h.2.2.1, h.2.2.2.1, h.2.2.2.2⟩
  · rintro ⟨ri, hri, ci, hci, hnd, hmem⟩
    refine ⟨ri, List.mem_range.mpr hri, ?_⟩
    rw [List.any_eq_true]
    refine ⟨ci, List.mem_range.mpr hci, ?_⟩
    rw [decide_eq_true_iff]
    exact ⟨hnd, hmem.1, hmem.2.1, hmem.2.2.1, hmem.2.2.2⟩

/-- C4 (amended): with a positive sheet size, and provided no cell's raw
intersection with the object is a degenerate sliver (each intersection
either has non-positive extent or exceeds `EPSILON` in that dimension), the
union of the per-cell intersection rectangles emitted by the tiling —
translated back to global coordinates and read as half-open boxes — equals
exactly the object's bounding rectangle intersected with the full grid
extent, and no point lies in the raw intersection rectangles of two
distinct cells.  (Without the no-sliver hypothesis the equality fails: a
sub-`EPSILON` sliver is skipped and its points are missed, see the
counterexample.) -/
theorem claim_tiling_partition_amended (object : PrintObject) (sheet : SheetDimensions)
    (columns rows : ℕ) (hW : 0 < sheet.widthMm) (hH : 0 < sheet.heightMm)
    (hnd : ∀ rowIndex < rows, ∀ columnIndex < columns,
      ((cellObjectInter object sheet columnIndex rowIndex).width ≤ 0 ∨
        EPSILON < (cellObjectInter object sheet columnIndex rowIndex).width) ∧
      ((cellObjectInter object sheet columnIndex rowIndex).height ≤ 0 ∨
        EPSILON < (cellObjectInter object sheet columnIndex rowIndex).height)) :
    (∀ p : ℚ × ℚ, inCellTiling object sheet columns rows p = true ↔
      inClippedObject object sheet columns rows p = true) ∧
    (∀ (p : ℚ × ℚ) (r1 c1 r2 c2 : ℕ), r1 < rows → c1 < columns → r2 < rows → c2 < columns →
      inCellInter object sheet c1 r1 p → inCellInter object sheet c2 r2 p →
      r1 = r2 ∧ c1 = c2) := by
  constructor
  · intro p
    rw [inCellTiling_iff]
    unfold inClippedObject
    rw [decide_eq_true_iff]
    constructor
    · rintro ⟨ri, hri, ci, hci, -, hmem⟩
      rw [inCellInter_iff] at hmem
      obtain ⟨h1, h2, h3, h4, h5, h6, h7, h8⟩ := hmem
      refine ⟨h1, h2, h3, h4, ?_, ?_, ?_, ?_⟩
      · have : (0 : ℚ) ≤ (ci : ℚ) * sheet.widthMm := by positivity
        linarith
      · have hle : ((ci : ℚ) + 1) * sheet.widthMm ≤ (columns : ℚ) * sheet.widthMm := by
          have : ((ci : ℚ) + 1) ≤ (columns : ℚ) := by exact_mod_cast hci
          exact mul_le_mul_of_nonneg_right this hW.le
        linarith
      · have : (0 : ℚ) ≤ (ri : ℚ) * sheet.heightMm := by positivity
        linarith
      · have hle : ((ri : ℚ) + 1) * sheet.heightMm ≤ (rows : ℚ) * sheet.heightMm := by
          have : ((ri : ℚ) + 1) ≤ (rows : ℚ) := by exact_mod_cast hri
          exact mul_le_mul_of_nonneg_right this hH.le
        linarith
    · rintro ⟨h1, h2, h3, h4, h5, h6, h7, h8⟩
      obtain ⟨ci, hci, hcl, hcr⟩ := floor_cell hW h5 h6
      obtain ⟨ri, hri, hrl, hrr⟩ := floor_cell hH h7 h8
      have hmem : inCellInter object sheet ci ri p := by
        rw [inCellInter_iff]
        exact ⟨h1, h2, h3, h4, hcl, hcr, hrl, hrr⟩
      refine ⟨ri, hri, ci, hci, ?_, hmem⟩
      obtain ⟨hndw, hndh⟩ := hnd ri hri ci hci
      have hwpos : 0 < (cellObjectInter object sheet ci ri).width := by
        have := hmem.1
        have := hmem.2.1
        unfold inCellInter at hmem
        linarith [hmem.1, hmem.2.1]
      have hhpos : 0 < (cellObjectInter object sheet ci ri).height := by
        unfold inCellInter at hmem
        linarith [hmem.2.2.1, hmem.2.2.2]
      push_neg
      constructor
      · rcases hndw with h | h
        · linarith
        · linarith
      · rcases hndh with h | h
        · linarith
        · linarith
  · intro p r1 c1 r2 c2 hr1 hc1 hr2 hc2 hm1 hm2
    rw [inCellInter_iff] at hm1 hm2
    obtain ⟨-, -, -, -, a5, a6, a7, a8⟩ := hm1
    obtain ⟨-, -, -, -, b5, b6, b7, b8⟩ := hm2
    exact ⟨cell_index_unique hH a7 a8 b7 b8, cell_index_unique hW a5 a6 b5 b6⟩

/-- C4 counterexample: an object 100.00005 mm wide on 100 mm wide sheets
(2 columns, 1 row).  The point `(100, 25)` lies in the object's bounding
rectangle intersected with the grid extent, but the cell (0,1)
intersection is a 0.00005 mm sliver (at most `EPSILON` = 0.0001 mm) and is
skipped, and cell (0,0) covers only `[0, 100)` — so the union of emitted
rectangles misses the point and the claimed exact equality fails. -/
theorem claim_tiling_partition_counterexample :
    inClippedObject ⟨"o", "o", 2000001/20000, 50, 0, 0, "#5c6ac4"⟩ ⟨100, 100⟩ 2 1
        (100, 25) = true ∧
    inCellTiling ⟨"o", "o", 2000001/20000, 50, 0, 0, "#5c6ac4"⟩ ⟨100, 100⟩ 2 1
        (100, 25) = false := by
  constructor
  · unfold inClippedObject
    rw [decide_eq_true_iff]
    norm_num
  · unfold inCellTiling cellObjectInter
    simp only [List.range_succ, List.range_zero, List.nil_append, List.any_cons,
      List.any_nil, List.any_append, Bool.or_eq_false_iff, decide_eq_false_iff_not]
    norm_num [EPSILON, max_def, min_def]

/-- C4 witness: a 100×50 object on 100×100 sheets (2 columns, 1 row) has no
degenerate sliver, and the tiling covers the point `(50, 25)` exactly when
the clipped object does. -/
theorem claim_tiling_partition_amended_witness :
    (inCellTiling ⟨"o", "o", 100, 50, 0, 0, "#5c6ac4"⟩ ⟨100, 100⟩ 2 1 (50, 25) = true ↔
      inClippedObject ⟨"o", "o", 100, 50, 0, 0, "#5c6ac4"⟩ ⟨100, 100⟩ 2 1 (50, 25) = true) := by
  refine (claim_tiling_partition_amended ⟨"o", "o", 100, 50, 0, 0, "#5c6ac4"⟩ ⟨100, 100⟩ 2 1
    (by norm_num) (by norm_num) ?_).1 (50, 25)
  intro rowIndex hri columnIndex hci
  interval_cases rowIndex
  interval_cases columnIndex
  · constructor
    · right
      norm_num [cellObjectInter, EPSILON, max_def, min_def]
    · right
      norm_num [cellObjectInter, EPSILON, max_def, min_def]
  · constructor
    · left
      norm_num [cellObjectInter, max_def, min_def]
    · right
      norm_num [cellObjectInter, EPSILON, max_def, min_def]

end PlanSpec
